import Mathlib

/-!
Verification of core components of a cross-exchange market-making and
hedging trading engine, shallowly embedded in Lean 4.

Conventions of the embedding:
* C++ doubles (prices, quantities, positions) are modelled as rationals;
  machine timestamps, logging text and wall-clock effects are not modelled
  (no verified claim depends on them).
* Stateful classes become structures with explicit state-passing step
  functions; callbacks are recorded as event lists inside the state.
* Fallible handlers are modelled with Except; an uncaught C++ exception is
  an Except.error that propagates.
-/


/- ----------------------------------------------------------------- -/
/- Event loop (src/src/strategy.hpp, EventProcessor)                  -/
/- ----------------------------------------------------------------- -/

/-- Event tags of the Event union in strategy.hpp (field event.type). -/
inductive EventType where
  | StartTrading
  | StopTrading
  | BybitMarketUpdate
  | BinanceMarketUpdate
  | OkxMarketUpdate
  | BybitOrderUpdate
  | OkxOrderUpdate
  | PositionRecon
  | WebSocketDisconnected
deriving DecidableEq, Repr

/-- The fixed set of Strategy handlers that handle_event dispatches to.
Each handler transforms the strategy state and may throw (Except.error). -/
structure StrategyHandlers (σ : Type) where
  handle_start_trading : σ → Except String σ
  handle_stop_trading : σ → Except String σ
  handle_bybit_market_update : σ → Except String σ
  handle_binance_market_update : σ → Except String σ
  handle_okx_market_update : σ → Except String σ
  handle_bybit_order_update : σ → Except String σ
  handle_okx_order_update : σ → Except String σ
  handle_position_recon : σ → Except String σ
  handle_ws_disconnected : σ → Except String σ

/-- EventProcessor::handle_event: switch on the event tag and invoke the
matching Strategy handler.  The source has no try/catch around the switch,
so a handler's exception propagates to the caller. -/
def handle_event {σ : Type} (H : StrategyHandlers σ) (s : σ) :
    EventType → Except String σ
  | .StartTrading => H.handle_start_trading s
  | .StopTrading => H.handle_stop_trading s
  | .BybitMarketUpdate => H.handle_bybit_market_update s
  | .BinanceMarketUpdate => H.handle_binance_market_update s
  | .OkxMarketUpdate => H.handle_okx_market_update s
  | .BybitOrderUpdate => H.handle_bybit_order_update s
  | .OkxOrderUpdate => H.handle_okx_order_update s
  | .PositionRecon => H.handle_position_recon s
  | .WebSocketDisconnected => H.handle_ws_disconnected s

/-- EventProcessor::process_events: the consumer loop pops events one by
one and calls handle_event on each.  There is no exception handling in the
loop body, so an error thrown by a handler aborts the loop. -/
def process_events {σ : Type} (H : StrategyHandlers σ) :
    σ → List EventType → Except String σ
  | s, [] => Except.ok s
  | s, e :: rest =>
    match handle_event H s e with
    | Except.ok s' => process_events H s' rest
    | Except.error msg => Except.error msg

/-- Concrete handler set over a Nat counter state: the StartTrading
handler throws, every other handler increments the counter. -/
def throwingHandlers : StrategyHandlers Nat :=
  { handle_start_trading := fun _ => Except.error "boom"
    handle_stop_trading := fun s => Except.ok (s + 1)
    handle_bybit_market_update := fun s => Except.ok (s + 1)
    handle_binance_market_update := fun s => Except.ok (s + 1)
    handle_okx_market_update := fun s => Except.ok (s + 1)
    handle_bybit_order_update := fun s => Except.ok (s + 1)
    handle_okx_order_update := fun s => Except.ok (s + 1)
    handle_position_recon := fun s => Except.ok (s + 1)
    handle_ws_disconnected := fun s => Except.ok (s + 1) }

/- ----------------------------------------------------------------- -/
/- Reconciliation (src/oms/okxreconciliationmanager.hpp)              -/
/- ----------------------------------------------------------------- -/

/-- ReconStatus enum used by the reconciliation manager. -/
inductive ReconStatus where
  | NoGap
  | TolerableGap
  | IntolerableGap
  | UndeterminedGap
  | FailedQuery
deriving DecidableEq, Repr

/-- Configuration fields of OkxReconciliationManager. -/
structure ReconConfig where
  m_tickSize : ℚ
  m_tolerableThreshold : ℚ
  m_maxMismatchCount : ℕ
  m_maxFailQueryCount : ℕ
  m_retryIntervalOnFailure : ℕ
  m_normalReconInterval : ℕ
  m_retryIntervalOnMismatch : ℕ
deriving Repr

/-- Mutable state of OkxReconciliationManager: the previous gap and the
two counters. -/
structure ReconState where
  gap : ℚ
  m_mismatchCounter : ℕ
  m_reconTryCounter : ℕ
deriving DecidableEq, Repr

/-- Result of one reconcile call: the new manager state, the status
written through the m_reconStatus out-parameter, and the returned tuple
(bool, interval, exchange position). -/
structure ReconOutcome where
  state : ReconState
  status : ReconStatus
  ok : Bool
  interval : ℕ
  exchPos : ℚ
deriving DecidableEq, Repr

/-- OkxReconciliationManager::reconcile.  queryResult is none when
fetch_position_impl fails (res.first == false), otherwise the reported
exchange position. -/
def reconcile (cfg : ReconConfig) (queryResult : Option ℚ)
    (internalPosition : ℚ) (s : ReconState) : ReconOutcome :=
  match queryResult with
  | none =>
    let tryCounter := s.m_reconTryCounter + 1
    if tryCounter ≥ cfg.m_maxFailQueryCount then
      { state := { s with m_reconTryCounter := tryCounter }
        status := ReconStatus.FailedQuery, ok := false, interval := 0, exchPos := 0 }
    else
      { state := { s with m_reconTryCounter := tryCounter }
        status := ReconStatus.NoGap, ok := true
        interval := cfg.m_retryIntervalOnFailure, exchPos := 0 }
  | some exchangePosition =>
    let prev_gap := s.gap
    let gap := |exchangePosition - internalPosition|
    if gap < cfg.m_tickSize then
      { state := { gap := gap, m_mismatchCounter := 0, m_reconTryCounter := 0 }
        status := ReconStatus.NoGap, ok := true
        interval := cfg.m_normalReconInterval, exchPos := exchangePosition }
    else if gap < cfg.m_tolerableThreshold then
      let mismatchCounter := if prev_gap = gap then s.m_mismatchCounter + 1 else 1
      let tryCounter := if prev_gap = gap then 0 else 1
      let s' : ReconState :=
        { gap := gap, m_mismatchCounter := mismatchCounter, m_reconTryCounter := tryCounter }
      if mismatchCounter ≥ cfg.m_maxMismatchCount then
        { state := s', status := ReconStatus.TolerableGap, ok := true
          interval := cfg.m_normalReconInterval, exchPos := exchangePosition }
      else if tryCounter ≥ cfg.m_maxFailQueryCount then
        { state := s', status := ReconStatus.UndeterminedGap, ok := false
          interval := 0, exchPos := exchangePosition }
      else
        { state := s', status := ReconStatus.NoGap, ok := true
          interval := cfg.m_retryIntervalOnMismatch, exchPos := exchangePosition }
    else
      let mismatchCounter := if prev_gap = gap then s.m_mismatchCounter + 1 else 1
      let tryCounter := if prev_gap = gap then 0 else 1
      let s' : ReconState :=
        { gap := gap, m_mismatchCounter := mismatchCounter, m_reconTryCounter := tryCounter }
      if mismatchCounter ≥ cfg.m_maxMismatchCount then
        { state := s', status := ReconStatus.IntolerableGap, ok := false
          interval := 0, exchPos := exchangePosition }
      else if tryCounter ≥ cfg.m_maxFailQueryCount then
        { state := s', status := ReconStatus.UndeterminedGap, ok := false
          interval := 0, exchPos := exchangePosition }
      else
        { state := s', status := ReconStatus.NoGap, ok := true
          interval := cfg.m_retryIntervalOnMismatch, exchPos := exchangePosition }

/- ----------------------------------------------------------------- -/
/- Order-routing websocket reconnection (src/oms/okxordersrouting.hpp) -/
/- ----------------------------------------------------------------- -/

/-- State of OkxOrderRouter relevant to reconnection: the connection
attempt counter (field reconnect_attempt, which counts every call of
connect_to_websocket, the initial connection included), the m_wsState
flag, and the messages delivered to the order-update callback
("disconnect" for a retrying disconnect, "connection_end" when the retry
limit is reached; recorded here as false / true respectively). -/
structure RouterState where
  reconnect_attempt : ℕ
  m_wsState : Bool
  emitted : List Bool
deriving DecidableEq, Repr

/-- OkxOrderRouter::connect_to_websocket: increments reconnect_attempt
and (re)starts the connection. -/
def connect_to_websocket (s : RouterState) : RouterState :=
  { s with reconnect_attempt := s.reconnect_attempt + 1 }

/-- OkxOrderRouter::setupRoutingConnection ends with the initial
connect_to_websocket call; reconnect_attempt starts at 0 and becomes 1. -/
def setupRoutingConnection : RouterState :=
  connect_to_websocket { reconnect_attempt := 0, m_wsState := false, emitted := [] }

/-- OkxOrderRouter::handle_disconnect: if reconnect_attempt + 1 exceeds
retry_limit, deliver "connection_end" (reached_retry_limit = true) and
stay disconnected; otherwise deliver "disconnect" (false) and reconnect
via schedule_reconnect / connect_to_websocket. -/
def handle_disconnect (retry_limit : ℕ) (s : RouterState) : RouterState :=
  if s.reconnect_attempt + 1 > retry_limit then
    { s with emitted := s.emitted ++ [true] }
  else
    connect_to_websocket { s with emitted := s.emitted ++ [false] }

/-- The close / fail handler registered in setupRoutingConnection: set
m_wsState to false, then handle_disconnect. -/
def onCloseEvent (retry_limit : ℕ) (s : RouterState) : RouterState :=
  handle_disconnect retry_limit { s with m_wsState := false }

/-- A sequence of n close/fail events applied after the initial
connection. -/
def closesAfterConnect (retry_limit n : ℕ) : RouterState :=
  Nat.rec setupRoutingConnection (fun _ s => onCloseEvent retry_limit s) n

/- ----------------------------------------------------------------- -/
/- Order handler (src/oms/orderhandler.hpp)                           -/
/- ----------------------------------------------------------------- -/

/-- OrderStatus enum. -/
inductive OrderStatus where
  | INITIAL
  | PENDING
  | LIVE
  | PARTIALLY_FILLED
  | FILLED
  | CANCELED
  | REJECTED
deriving DecidableEq, Repr

/-- RejectReason taxonomy (the members Okx code paths can produce). -/
inductive RejectReason where
  | NONE
  | THROTTLE_HIT
  | WS_FAILURE
  | ORDER_SIZE_NOT_MULTIPLE_OF_LOT_SIZE
  | ORDER_PRICE_NOT_IN_RANGE
  | INSUFFICIENT_FUNDS
  | ORDER_DOES_NOT_EXIST_ON_EXCH_ORDERBOOK
  | ORDER_HAS_BEEN_FILLED_OR_CANCELLED
  | SERVICE_TEMPORARILY_UNAVAILABLE
  | API_OFFLINE_OR_UNAVAILABLE
  | EXCHANGE_BUSY
  | API_KEY_DOES_NOT_MATCH_ENV
  | ACCOUNT_BLOCKED
  | FEATURE_UNAVAILABLE_IN_DEMO
  | INSTRUMENT_BLOCKED
  | CANNOT_TRADE_ON_CHOSEN_CRYPTO_DUE_TO_LOCAL_NEWS_AND_REGULATIONS
  | UNKNOWN_ERROR
deriving DecidableEq, Repr

/-- OrderHandler record.  Timestamp fields, fee/fill bookkeeping and the
string fields are untouched by every verified claim and are omitted;
prices and quantities are rationals. -/
structure OrderHandler where
  m_side : Bool
  m_orderHasBeenLive : Bool
  m_clientOrderId : ℕ
  m_cumFilledQty : ℚ
  m_priceOnExch : ℚ
  m_qtyOnExch : ℚ
  m_qtySubmitted : ℚ
  m_priceSubmitted : ℚ
  m_status : OrderStatus
  m_reason : RejectReason
deriving DecidableEq, Repr

/-- OkxOrderManager::createOrderHandler: a freshly constructed handler
(OrderHandler's constructor sets INITIAL / NONE, all other fields to
their zero defaults). -/
def createOrderHandler : OrderHandler :=
  { m_side := false, m_orderHasBeenLive := false, m_clientOrderId := 0,
    m_cumFilledQty := 0, m_priceOnExch := 0, m_qtyOnExch := 0,
    m_qtySubmitted := 0, m_priceSubmitted := 0,
    m_status := OrderStatus.INITIAL, m_reason := RejectReason.NONE }

/- ----------------------------------------------------------------- -/
/- Order manager (src/oms/okxordermanager.hpp)                        -/
/- ----------------------------------------------------------------- -/

/-- The order map (std::unordered_map keyed by client-order-id) as an
association list; shared_ptr sharing becomes in-place functional update. -/
abbrev OrderMap : Type := List (ℕ × OrderHandler)

/-- Map lookup (orderMap.find). -/
def lookupOrder (m : OrderMap) (k : ℕ) : Option OrderHandler :=
  (List.find? (fun p => p.1 = k) m).map (fun p => p.2)

/-- Map emplace: inserts only when the key is absent (unordered_map
semantics). -/
def emplaceOrder (m : OrderMap) (k : ℕ) (o : OrderHandler) : OrderMap :=
  match lookupOrder m k with
  | some _ => m
  | none => m ++ [(k, o)]

/-- In-place mutation of the handler stored under a key (writes through
the shared_ptr). -/
def updateOrder (m : OrderMap) (k : ℕ) (f : OrderHandler → OrderHandler) : OrderMap :=
  List.map (fun p => if p.1 = k then (p.1, f p.2) else p) m

/-- Map erase by key. -/
def eraseOrder (m : OrderMap) (k : ℕ) : OrderMap :=
  List.filter (fun p => p.1 ≠ k) m

/-- Observable state of OkxOrderManager: the order map, the three
retention queues (front = head), the sequence of orderStatusUpdateCallback
invocations (snapshot of the handler at call time) and the count of
"order not placed from this strat run" warnings. -/
structure OMState where
  orderMap : OrderMap
  cancelQueue : List ℕ
  rejectedQueue : List ℕ
  filledQueue : List ℕ
  callbackLog : List OrderHandler
  warningCount : ℕ
deriving Repr

/-- The order manager's initial state: everything empty. -/
def initialOM : OMState :=
  { orderMap := [], cancelQueue := [], rejectedQueue := [],
    filledQueue := [], callbackLog := [], warningCount := 0 }

/-- One while-loop of OkxOrderManager::maintainOrderLimit: while the
queue is longer than m_trackOrderCnt, pop the front id and erase it from
the order map. -/
def evictQueue (trackCnt : ℕ) : List ℕ → OrderMap → List ℕ × OrderMap
  | [], m => ([], m)
  | id :: rest, m =>
    if trackCnt < (id :: rest).length then evictQueue trackCnt rest (eraseOrder m id)
    else (id :: rest, m)

/-- OkxOrderManager::maintainOrderLimit: run the eviction loop on the
cancel, rejected and filled queues in that order. -/
def maintainOrderLimit (trackCnt : ℕ) (s : OMState) : OMState :=
  let cq := evictQueue trackCnt s.cancelQueue s.orderMap
  let rq := evictQueue trackCnt s.rejectedQueue cq.2
  let fq := evictQueue trackCnt s.filledQueue rq.2
  { s with orderMap := fq.2, cancelQueue := cq.1
           rejectedQueue := rq.1, filledQueue := fq.1 }

/-- OkxOrderManager::getOrderStatus: PENDING when the id is not in the
order map, otherwise the stored status. -/
def getOrderStatus (s : OMState) (orderId : ℕ) : OrderStatus :=
  match lookupOrder s.orderMap orderId with
  | none => OrderStatus.PENDING
  | some o => o.m_status

/-- OkxOrderManager::getOrdersByStatus: all mapped handlers whose status
matches. -/
def getOrdersByStatus (m : OrderMap) (status : OrderStatus) : List OrderHandler :=
  List.filter (fun o => o.m_status = status) (List.map (fun p => p.2) m)

/-- OkxOrderManager::placeOrder.  wsReady is isWebSocketReady();
sendResult is the client-order-id returned by
OkxOrderRouter::sendOrder (0 on send failure).  Returns the new state and
the function's return value.  The websocketStatusUpdateCallback(false)
call on the send-failure path is not modelled. -/
def placeOrder (wsReady : Bool) (sendResult : ℕ) (price qty : ℚ) (buy : Bool)
    (s : OMState) : OMState × ℕ :=
  let orderHandler := createOrderHandler
  if ¬ wsReady then
    let o := { orderHandler with m_status := OrderStatus.REJECTED,
                                 m_reason := RejectReason.WS_FAILURE }
    ({ s with callbackLog := s.callbackLog ++ [o] }, 0)
  else
    let clientOrderId := sendResult
    if clientOrderId ≠ 0 then
      let o := { orderHandler with m_clientOrderId := clientOrderId,
                                   m_status := OrderStatus.PENDING,
                                   m_reason := RejectReason.NONE,
                                   m_side := buy,
                                   m_qtySubmitted := qty,
                                   m_priceSubmitted := price }
      ({ s with orderMap := emplaceOrder s.orderMap clientOrderId o }, clientOrderId)
    else
      let o := { orderHandler with m_status := OrderStatus.REJECTED,
                                   m_reason := RejectReason.WS_FAILURE }
      ({ s with callbackLog := s.callbackLog ++ [o] }, 0)

/-- OkxOrderManager::cancelOrder.  An unknown client-order-id first gets
a fresh default handler emplaced under that id; if the websocket is not
ready the handler is rejected with WS_FAILURE, the callback fires, and
the function returns clientOrderId; otherwise the router result decides
between the WS_FAILURE path (return 0) and recording m_clientOrderId
(return the router's request timestamp, modelled by sendResult). -/
def cancelOrder (wsReady : Bool) (sendResult : ℕ) (clientOrderId : ℕ)
    (s : OMState) : OMState × ℕ :=
  let s0 :=
    match lookupOrder s.orderMap clientOrderId with
    | some _ => s
    | none => { s with orderMap := emplaceOrder s.orderMap clientOrderId createOrderHandler }
  let o := (lookupOrder s0.orderMap clientOrderId).getD createOrderHandler
  if ¬ wsReady then
    let o' := { o with m_status := OrderStatus.REJECTED,
                       m_reason := RejectReason.WS_FAILURE }
    ({ s0 with orderMap := updateOrder s0.orderMap clientOrderId (fun _ => o'),
               callbackLog := s0.callbackLog ++ [o'] }, clientOrderId)
  else
    let ret := sendResult
    if ret = 0 then
      let o' := { o with m_status := OrderStatus.REJECTED,
                         m_reason := RejectReason.WS_FAILURE }
      ({ s0 with orderMap := updateOrder s0.orderMap clientOrderId (fun _ => o'),
                 callbackLog := s0.callbackLog ++ [o'] }, 0)
    else
      let o' := { o with m_clientOrderId := clientOrderId }
      ({ s0 with orderMap := updateOrder s0.orderMap clientOrderId (fun _ => o') }, ret)

/-- OkxOrderManager::modifyOrder.  Mirrors cancelOrder, except that the
submitted quantity is overwritten before the send and the submitted price
only on success. -/
def modifyOrder (wsReady : Bool) (sendResult : ℕ) (clientOrderId : ℕ)
    (newPrice newQty : ℚ) (s : OMState) : OMState × ℕ :=
  let s0 :=
    match lookupOrder s.orderMap clientOrderId with
    | some _ => s
    | none => { s with orderMap := emplaceOrder s.orderMap clientOrderId createOrderHandler }
  let o := (lookupOrder s0.orderMap clientOrderId).getD createOrderHandler
  if ¬ wsReady then
    let o' := { o with m_status := OrderStatus.REJECTED,
                       m_reason := RejectReason.WS_FAILURE }
    ({ s0 with orderMap := updateOrder s0.orderMap clientOrderId (fun _ => o'),
               callbackLog := s0.callbackLog ++ [o'] }, clientOrderId)
  else
    let o1 := { o with m_qtySubmitted := newQty }
    let ret := sendResult
    if ret = 0 then
      let o' := { o1 with m_status := OrderStatus.REJECTED,
                          m_reason := RejectReason.WS_FAILURE }
      ({ s0 with orderMap := updateOrder s0.orderMap clientOrderId (fun _ => o'),
                 callbackLog := s0.callbackLog ++ [o'] }, 0)
    else
      let o' := { o1 with m_clientOrderId := clientOrderId,
                          m_priceSubmitted := newPrice }
      ({ s0 with orderMap := updateOrder s0.orderMap clientOrderId (fun _ => o') }, ret)

/-- The typed content of the inbound frames getUpdatedOrderStatus
handles: a reject ack (top-level code "1" with an sCode per order), the
three code-"0" acks (timestamp-only), and the channel order-state
updates. -/
inductive ExchUpdate where
  | reject (clOrdId : ℕ) (sCode : String)
  | ackOrder (clOrdId : ℕ)
  | ackAmend (clOrdId : ℕ)
  | ackCancel (clOrdId : ℕ)
  | stateLive (clOrdId : ℕ) (px sz : ℚ)
  | stateCanceled (clOrdId : ℕ) (accFillSz : ℚ)
  | statePartialFill (clOrdId : ℕ) (accFillSz fillSz : ℚ)
  | stateFilled (clOrdId : ℕ) (accFillSz fillSz : ℚ)
deriving DecidableEq, Repr

/-- The sCode → RejectReason mapping table of getUpdatedOrderStatus. -/
def rejectReasonOfCode (c : String) : RejectReason :=
  if c = "50018" then RejectReason.INSUFFICIENT_FUNDS
  else if c = "51008" then RejectReason.INSUFFICIENT_FUNDS
  else if c = "51503" then RejectReason.ORDER_DOES_NOT_EXIST_ON_EXCH_ORDERBOOK
  else if c = "50011" then RejectReason.THROTTLE_HIT
  else if c = "51006" then RejectReason.ORDER_PRICE_NOT_IN_RANGE
  else if c = "51400" then RejectReason.ORDER_HAS_BEEN_FILLED_OR_CANCELLED
  else if c = "51121" then RejectReason.ORDER_SIZE_NOT_MULTIPLE_OF_LOT_SIZE
  else if c = "50001" then RejectReason.SERVICE_TEMPORARILY_UNAVAILABLE
  else if c = "50005" then RejectReason.API_OFFLINE_OR_UNAVAILABLE
  else if c = "50007" then RejectReason.ACCOUNT_BLOCKED
  else if c = "50013" then RejectReason.EXCHANGE_BUSY
  else if c = "50033" then RejectReason.INSTRUMENT_BLOCKED
  else if c = "50038" then RejectReason.FEATURE_UNAVAILABLE_IN_DEMO
  else if c = "50052" then
    RejectReason.CANNOT_TRADE_ON_CHOSEN_CRYPTO_DUE_TO_LOCAL_NEWS_AND_REGULATIONS
  else if c = "50101" then RejectReason.API_KEY_DOES_NOT_MATCH_ENV
  else RejectReason.UNKNOWN_ERROR

/-- The reject branches for sCodes 51503 and 51400 push the rejected
queue unconditionally; every other branch guards the push with
!m_orderHasBeenLive. -/
def rejectPushesUnconditionally (c : String) : Bool :=
  c = "51503" || c = "51400"

/-- getUpdatedOrderStatus, reject path (top-level code "1"): an unknown
client-order-id is silently skipped; otherwise the order is marked
REJECTED with the mapped reason, conditionally pushed onto rejectedQueue
(followed by maintainOrderLimit), and the callback fires with the updated
handler. -/
def applyReject (trackCnt : ℕ) (clOrdId : ℕ) (code : String) (s : OMState) : OMState :=
  match lookupOrder s.orderMap clOrdId with
  | none => s
  | some o =>
    let o' := { o with m_status := OrderStatus.REJECTED,
                       m_reason := rejectReasonOfCode code }
    let s1 := { s with orderMap := updateOrder s.orderMap clOrdId (fun _ => o') }
    let doPush := rejectPushesUnconditionally code || ! o.m_orderHasBeenLive
    let s2 :=
      if doPush then
        maintainOrderLimit trackCnt
          { s1 with rejectedQueue := s1.rejectedQueue ++ [o'.m_clientOrderId] }
      else s1
    { s2 with callbackLog := s2.callbackLog ++ [o'] }

/-- getUpdatedOrderStatus, channel path (arg/channel frames): an unknown
client-order-id is logged ("okx order not placed from this strat run")
and dropped; a known one is updated per reported state, CANCELED and
FILLED states push their retention queue and trigger eviction, and the
callback fires with the updated handler.  factor is the contract
multiplier of the configured instrument.  Position-manager and realised
pnl side effects are not modelled. -/
def applyChannelUpdate (trackCnt : ℕ) (factor : ℚ) (u : ExchUpdate) (s : OMState) : OMState :=
  match u with
  | ExchUpdate.reject clOrdId code => applyReject trackCnt clOrdId code s
  | ExchUpdate.ackOrder _ => s
  | ExchUpdate.ackAmend _ => s
  | ExchUpdate.ackCancel _ => s
  | ExchUpdate.stateLive clOrdId px sz =>
    match lookupOrder s.orderMap clOrdId with
    | none => { s with warningCount := s.warningCount + 1 }
    | some o =>
      let o' := { o with m_reason := RejectReason.NONE,
                         m_status := OrderStatus.LIVE,
                         m_orderHasBeenLive := true,
                         m_priceOnExch := px,
                         m_qtyOnExch := sz * factor }
      { s with orderMap := updateOrder s.orderMap clOrdId (fun _ => o'),
               callbackLog := s.callbackLog ++ [o'] }
  | ExchUpdate.stateCanceled clOrdId accFillSz =>
    match lookupOrder s.orderMap clOrdId with
    | none => { s with warningCount := s.warningCount + 1 }
    | some o =>
      let o' := { o with m_reason := RejectReason.NONE,
                         m_status := OrderStatus.CANCELED,
                         m_cumFilledQty := accFillSz * factor }
      let s1 := { s with orderMap := updateOrder s.orderMap clOrdId (fun _ => o') }
      let s2 := maintainOrderLimit trackCnt
        { s1 with cancelQueue := s1.cancelQueue ++ [o'.m_clientOrderId] }
      { s2 with callbackLog := s2.callbackLog ++ [o'] }
  | ExchUpdate.statePartialFill clOrdId accFillSz fillSz =>
    match lookupOrder s.orderMap clOrdId with
    | none => { s with warningCount := s.warningCount + 1 }
    | some o =>
      let o' := { o with m_reason := RejectReason.NONE,
                         m_status := OrderStatus.PARTIALLY_FILLED,
                         m_cumFilledQty := accFillSz * factor,
                         m_qtyOnExch := o.m_qtyOnExch - fillSz * factor }
      { s with orderMap := updateOrder s.orderMap clOrdId (fun _ => o'),
               callbackLog := s.callbackLog ++ [o'] }
  | ExchUpdate.stateFilled clOrdId accFillSz _fillSz =>
    match lookupOrder s.orderMap clOrdId with
    | none => { s with warningCount := s.warningCount + 1 }
    | some o =>
      let o' := { o with m_reason := RejectReason.NONE,
                         m_status := OrderStatus.FILLED,
                         m_cumFilledQty := accFillSz * factor }
      let s1 := { s with orderMap := updateOrder s.orderMap clOrdId (fun _ => o') }
      let s2 := maintainOrderLimit trackCnt
        { s1 with filledQueue := s1.filledQueue ++ [o'.m_clientOrderId] }
      { s2 with callbackLog := s2.callbackLog ++ [o'] }

/-- The operations that drive the order manager's state: the three
outbound calls and the inbound updates. -/
inductive OMOp where
  | place (wsReady : Bool) (sendResult : ℕ) (price qty : ℚ) (buy : Bool)
  | cancel (wsReady : Bool) (sendResult : ℕ) (clientOrderId : ℕ)
  | modify (wsReady : Bool) (sendResult : ℕ) (clientOrderId : ℕ) (newPrice newQty : ℚ)
  | update (u : ExchUpdate)
deriving Repr

/-- One step of the order manager (return values discarded). -/
def applyOMOp (trackCnt : ℕ) (factor : ℚ) (op : OMOp) (s : OMState) : OMState :=
  match op with
  | OMOp.place w r p q b => (placeOrder w r p q b s).1
  | OMOp.cancel w r id => (cancelOrder w r id s).1
  | OMOp.modify w r id np nq => (modifyOrder w r id np nq s).1
  | OMOp.update u => applyChannelUpdate trackCnt factor u s

/-- A run of the order manager from the empty initial state. -/
def runOMOps (trackCnt : ℕ) (factor : ℚ) (ops : List OMOp) : OMState :=
  List.foldl (fun s op => applyOMOp trackCnt factor op s) initialOM ops

/- ----------------------------------------------------------------- -/
/- Side type and Hedger (src/src/Side.h, src/src/Hedger.h)            -/
/- ----------------------------------------------------------------- -/

/-- Side::Type. -/
inductive SideType where
  | Ask
  | Bid
deriving DecidableEq, Repr

/-- The C++ comparison side == Side::Type::Bid used by the hedger's
order filter. -/
def isBidSide : SideType → Bool
  | SideType.Bid => true
  | SideType.Ask => false

/-- Hedger::is_exposure_significant: |exposure| ≥ min_hedge_size. -/
def is_exposure_significant (minHedgeSize exposure : ℚ) : Prop :=
  minHedgeSize ≤ |exposure|

instance (minHedgeSize exposure : ℚ) :
    Decidable (is_exposure_significant minHedgeSize exposure) := by
  unfold is_exposure_significant; infer_instance

/-- Hedger::get_potential_fill_size: over the hedge executor's order map,
sum m_qtySubmitted of PENDING orders and m_qtyOnExch of LIVE and
PARTIALLY_FILLED orders whose side matches (order.m_side ==
(side == Bid)). -/
def get_potential_fill_size (m : OrderMap) (side : SideType) : ℚ :=
  let pending := List.filter (fun o => o.m_side = isBidSide side)
    (getOrdersByStatus m OrderStatus.PENDING)
  let live := List.filter (fun o => o.m_side = isBidSide side)
    (getOrdersByStatus m OrderStatus.LIVE)
  let partiallyFilled := List.filter (fun o => o.m_side = isBidSide side)
    (getOrdersByStatus m OrderStatus.PARTIALLY_FILLED)
  (List.map (fun o => o.m_qtySubmitted) pending).sum +
    (List.map (fun o => o.m_qtyOnExch) live).sum +
    (List.map (fun o => o.m_qtyOnExch) partiallyFilled).sum

/-- Hedger::calculate_unhedged_exposure. -/
def calculate_unhedged_exposure (m : OrderMap) (exposure : ℚ) : ℚ :=
  if 0 < exposure then
    let potential_ask_fills := get_potential_fill_size m SideType.Ask
    if potential_ask_fills < exposure then exposure - potential_ask_fills else 0
  else if exposure < 0 then
    let potential_bid_fills := get_potential_fill_size m SideType.Bid
    if potential_bid_fills < -exposure then exposure + potential_bid_fills else 0
  else 0

/-- Hedger::hedge: compute total exposure, bail out below
min_hedge_size, net out in-flight hedge orders, bail out again, and
otherwise send a market order of |unhedged_exposure| on the side exposed
by determine_hedge_side.  The result is the order sent to
send_hedge_order, none when nothing is sent. -/
def hedge (m : OrderMap) (quotePos hedgePos minHedgeSize : ℚ) : Option (ℚ × SideType) :=
  let total_exposure := quotePos + hedgePos
  if ¬ is_exposure_significant minHedgeSize total_exposure then none
  else
    let unhedged_exposure := calculate_unhedged_exposure m total_exposure
    if ¬ is_exposure_significant minHedgeSize unhedged_exposure then none
    else
      let hedge_side := if 0 < unhedged_exposure then SideType.Ask else SideType.Bid
      some (|unhedged_exposure|, hedge_side)

/-- Modelled from the spec: the side whose fills reduce a nonzero
exposure — asks for a long (positive) exposure, bids for a short one. -/
def reducingSide (exposure : ℚ) : SideType :=
  if 0 < exposure then SideType.Ask else SideType.Bid

/-- Modelled from the spec: sign(exposure) as a rational. -/
def qsign (exposure : ℚ) : ℚ :=
  if 0 < exposure then 1 else if exposure < 0 then -1 else 0

/-- Modelled from the spec: the spec's formula
unhedged_exposure = max(0, |exposure| − potential_fills) * sign(exposure)
with potential_fills taken on the exposure-reducing side. -/
def spec_unhedged_exposure (m : OrderMap) (exposure : ℚ) : ℚ :=
  max 0 (|exposure| - get_potential_fill_size m (reducingSide exposure)) * qsign exposure

/- ----------------------------------------------------------------- -/
/- Retention-queue accounting for C5                                  -/
/- ----------------------------------------------------------------- -/

/-- Total number of occurrences of a client-order-id across the three
retention queues. -/
def queueOcc (id : ℕ) (s : OMState) : ℕ :=
  List.count id s.cancelQueue + List.count id s.rejectedQueue +
    List.count id s.filledQueue

/-- The client-order-ids an operation pushes onto a retention queue when
applied in a given state: terminal channel updates (canceled / filled)
push the mapped handler's m_clientOrderId, a reject pushes it when the
sCode is 51503/51400 or the order has never been LIVE; no other
operation pushes. -/
def pushedIds (op : OMOp) (s : OMState) : List ℕ :=
  match op with
  | OMOp.update (ExchUpdate.reject k code) =>
    match lookupOrder s.orderMap k with
    | none => []
    | some o =>
      if rejectPushesUnconditionally code || ! o.m_orderHasBeenLive
      then [o.m_clientOrderId] else []
  | OMOp.update (ExchUpdate.stateCanceled k _) =>
    match lookupOrder s.orderMap k with
    | none => []
    | some o => [o.m_clientOrderId]
  | OMOp.update (ExchUpdate.stateFilled k _ _) =>
    match lookupOrder s.orderMap k with
    | none => []
    | some o => [o.m_clientOrderId]
  | _ => []

/-- All queue pushes performed along a run. -/
def tracePushes (trackCnt : ℕ) (factor : ℚ) : List OMOp → OMState → List ℕ
  | [], _ => []
  | op :: rest, s =>
    pushedIds op s ++ tracePushes trackCnt factor rest (applyOMOp trackCnt factor op s)

/- ----------------------------------------------------------------- -/
/- Side algebra (src/src/Side.h) over rationals                       -/
/- ----------------------------------------------------------------- -/

/-- Side::sign: +1 for Ask, −1 for Bid. -/
def sideSign : SideType → ℤ
  | SideType.Ask => 1
  | SideType.Bid => -1

/-- Side::is_inner: price_check closer to mid than price_reference. -/
def sideIsInner (side : SideType) (price_check price_reference : ℚ) : Bool :=
  match side with
  | SideType.Ask => decide (price_check < price_reference)
  | SideType.Bid => decide (price_check > price_reference)

/-- Side::is_inner_or_equal. -/
def sideIsInnerOrEqual (side : SideType) (price_check price_reference : ℚ) : Bool :=
  match side with
  | SideType.Ask => decide (price_check ≤ price_reference)
  | SideType.Bid => decide (price_check ≥ price_reference)

/-- Side::add_away: move a price away from mid by an offset. -/
def sideAddAway (side : SideType) (base_price price_offset : ℚ) : ℚ :=
  match side with
  | SideType.Ask => base_price + price_offset
  | SideType.Bid => base_price - price_offset

/- ----------------------------------------------------------------- -/
/- Price shifters (src/src/TouchPriceShifter.h, PostablePriceShifter.h) -/
/- ----------------------------------------------------------------- -/

/-- The i ≥ 1 loop shared verbatim by TouchPriceShifter::shift and
PostablePriceShifter::shift: walking outward, a price that is
inner-or-equal to its (already shifted) more-inner neighbor is replaced
by that neighbor plus one tick in the away direction. -/
def shiftTailLoop (side : SideType) (tick : ℚ) : ℚ → List ℚ → List ℚ
  | _, [] => []
  | prev, p :: rest =>
    if sideIsInnerOrEqual side p prev then
      sideAddAway side prev tick :: shiftTailLoop side tick (sideAddAway side prev tick) rest
    else
      p :: shiftTailLoop side tick p rest

/-- TouchPriceShifter::shift: if the outermost price is inner to the
local touch, push it to touch ± ticks_from_touch·tick, then run the
monotonicity fix-up loop. -/
def touchShift (side : SideType) (ticks_from_touch tick : ℚ)
    (prices : List ℚ) (market_price : ℚ) : List ℚ :=
  match prices with
  | [] => []
  | p0 :: rest =>
    let p0' := if sideIsInner side p0 market_price
      then sideAddAway side market_price (ticks_from_touch * tick) else p0
    p0' :: shiftTailLoop side tick p0' rest

/-- PostablePriceShifter::shift: like touchShift but anchored
inner-or-equal to the opposite-side best price, pushed one extra tick. -/
def postableShift (side : SideType) (ticks_from_postable tick : ℚ)
    (prices : List ℚ) (market_opposite_price : ℚ) : List ℚ :=
  match prices with
  | [] => []
  | p0 :: rest =>
    let p0' := if sideIsInnerOrEqual side p0 market_opposite_price
      then sideAddAway side market_opposite_price ((1 + ticks_from_postable) * tick) else p0
    p0' :: shiftTailLoop side tick p0' rest

/- ----------------------------------------------------------------- -/
/- Price rounding (src/src/rounding.h)                                -/
/- ----------------------------------------------------------------- -/

/-- PriceRoundMode enum. -/
inductive PriceRoundMode where
  | Inner
  | Away
  | Nearest
deriving DecidableEq, Repr

/-- BaseRounder::round_up: ceil to the tick grid. -/
def round_up (tick_size value : ℚ) : ℚ := ⌈value / tick_size⌉ * tick_size

/-- BaseRounder::round_down: floor to the tick grid. -/
def round_down (tick_size value : ℚ) : ℚ := ⌊value / tick_size⌋ * tick_size

/-- BaseRounder::round_nearest via std::round (halfway away from zero). -/
def round_nearest (tick_size value : ℚ) : ℚ :=
  let x := value / tick_size
  (if 0 ≤ x then (⌊x + 1/2⌋ : ℤ) else ⌈x - 1/2⌉) * tick_size

/-- PriceRounder::round_price: Inner rounds bids up / asks down, Away
the opposite, Nearest to the closest grid point. -/
def round_price (tick_size : ℚ) (mode : PriceRoundMode) (side : SideType)
    (price : ℚ) : ℚ :=
  match mode with
  | PriceRoundMode.Inner =>
    if sideSign side < 0 then round_up tick_size price else round_down tick_size price
  | PriceRoundMode.Away =>
    if sideSign side < 0 then round_down tick_size price else round_up tick_size price
  | PriceRoundMode.Nearest => round_nearest tick_size price

/- ----------------------------------------------------------------- -/
/- Target-order ladder (src/src/TargetOrderManager.h)                 -/
/- ----------------------------------------------------------------- -/

/-- OffsetBase enum. -/
inductive OffsetBase where
  | Mid
  | Touch
deriving DecidableEq, Repr

/-- The Ask/Bid comparator of the target-order maps: prices within
price_tick_size of each other compare equal (comparator returns false),
otherwise the more-inner price comes first (lhs < rhs for asks,
lhs > rhs for bids). -/
def ladderComp (side : SideType) (tolerance a b : ℚ) : Bool :=
  if |a - b| < tolerance then false else sideIsInner side a b

/-- std::map::emplace under ladderComp: walk to the insertion point;
a key equivalent to an existing one (comparator false both ways) is not
inserted. -/
def ladderEmplace (side : SideType) (tolerance : ℚ) : List ℚ → ℚ → List ℚ
  | [], k => [k]
  | e :: es, k =>
    if ladderComp side tolerance k e then k :: e :: es
    else if ladderComp side tolerance e k then e :: ladderEmplace side tolerance es k
    else e :: es

/-- The reset-and-emplace loop at the end of refresh_target_orders:
clear the side's map and emplace every computed price. -/
def buildLadder (side : SideType) (tolerance : ℚ) (prices : List ℚ) : List ℚ :=
  List.foldl (ladderEmplace side tolerance) [] prices

/-- Configuration of TargetOrderManager relevant to price computation
(sizes do not affect the ladder-price claims). -/
structure TOMConfig where
  price_tick_size : ℚ
  price_round_mode : PriceRoundMode
  enable_touch_price : Bool
  ticks_from_touch : ℚ
  enable_postable_price : Bool
  ticks_from_postable : ℚ
  offset_base : OffsetBase
deriving Repr

/-- TargetOrderManager::refresh_target_orders, price pipeline for one
side: compute rounded raw prices from the configured offsets, apply the
touch shift and the postable shift when enabled, then clear the side's
target map and emplace each price under the tolerance comparator.  The
result lists the ladder's keys in map order (inner first). -/
def refresh_target_orders (cfg : TOMConfig) (side : SideType) (offsets : List ℚ)
    (quote_mid touch_price local_ask local_bid : ℚ) : List ℚ :=
  let prices0 := List.map (fun offset =>
    let base_price := if cfg.offset_base = OffsetBase.Mid then quote_mid else touch_price
    let raw_price := base_price * sideAddAway side 1 offset
    round_price cfg.price_tick_size cfg.price_round_mode side raw_price) offsets
  let prices1 :=
    if cfg.enable_touch_price then
      touchShift side cfg.ticks_from_touch cfg.price_tick_size prices0
        (if side = SideType.Ask then local_ask else local_bid)
    else prices0
  let prices2 :=
    if cfg.enable_postable_price then
      postableShift side cfg.ticks_from_postable cfg.price_tick_size prices1
        (if side = SideType.Ask then local_bid else local_ask)
    else prices1
  buildLadder side cfg.price_tick_size prices2

/- ----------------------------------------------------------------- -/
/- Order book (src/infra/book.hpp) and theorems for C8                -/
/- ----------------------------------------------------------------- -/

/-- PRICE_EPSILON constant of book.hpp (1e-9). -/
def PRICE_EPSILON : ℚ := 1 / 1000000000

/-- MAX_LEVELS constant of book.hpp. -/
def MAX_LEVELS : ℕ := 1000

/-- PriceLevel record of book.hpp. -/
structure PriceLevel where
  price : ℚ
  quantity : ℚ
deriving DecidableEq, Repr

/-- PriceLevelArray: the live prefix levels[0..size) modelled as a list,
plus the isDescending flag. -/
structure PriceLevelArray where
  levels : List PriceLevel
  isDescending : Bool
deriving DecidableEq, Repr

/-- A freshly constructed PriceLevelArray (size 0). -/
def emptyPLA (descending : Bool) : PriceLevelArray :=
  { levels := [], isDescending := descending }

/-- PriceLevelArray::findIndex, the binary-search loop.  The mid index
left + (right − left) / 2 and its price are inlined at each use (the C++
locals mid / midPrice), and the epsilon test
std::abs(midPrice − price) < PRICE_EPSILON is written as the equivalent
two-sided inequality so that the branch conditions stay elementary. -/
def findIndexAux (l : List PriceLevel) (desc : Bool) (price : ℚ) (left right : ℤ) : ℤ :=
  if left ≤ right then
    if -PRICE_EPSILON < (l.getD (left + (right - left) / 2).toNat ⟨0, 0⟩).price - price ∧
       (l.getD (left + (right - left) / 2).toNat ⟨0, 0⟩).price - price < PRICE_EPSILON then
      left + (right - left) / 2
    else if desc then
      if price < (l.getD (left + (right - left) / 2).toNat ⟨0, 0⟩).price then
        findIndexAux l desc price (left + (right - left) / 2 + 1) right
      else findIndexAux l desc price left (left + (right - left) / 2 - 1)
    else
      if (l.getD (left + (right - left) / 2).toNat ⟨0, 0⟩).price < price then
        findIndexAux l desc price (left + (right - left) / 2 + 1) right
      else findIndexAux l desc price left (left + (right - left) / 2 - 1)
  else left
termination_by (right + 1 - left).toNat
decreasing_by
  · omega
  · omega
  · omega
  · omega

/-- PriceLevelArray::findIndex: search the whole live range. -/
def findIndex (a : PriceLevelArray) (price : ℚ) : ℤ :=
  findIndexAux a.levels a.isDescending price 0 ((a.levels.length : ℤ) - 1)

/-- PriceLevelArray::insert: an epsilon-equal level is updated in place,
or erased when the new quantity is at or below epsilon; otherwise a
quantity above epsilon is inserted at the search position while the
array is below MAX_LEVELS capacity. -/
def insertPLA (a : PriceLevelArray) (price quantity : ℚ) : PriceLevelArray :=
  let index := findIndex a price
  if index < (a.levels.length : ℤ) ∧
     -PRICE_EPSILON < (a.levels.getD index.toNat ⟨0, 0⟩).price - price ∧
     (a.levels.getD index.toNat ⟨0, 0⟩).price - price < PRICE_EPSILON then
    if quantity ≤ PRICE_EPSILON then
      { a with levels := a.levels.eraseIdx index.toNat }
    else
      { a with levels := a.levels.set index.toNat ⟨(a.levels.getD index.toNat ⟨0, 0⟩).price, quantity⟩ }
  else
    if PRICE_EPSILON < quantity ∧ a.levels.length < MAX_LEVELS then
      { a with levels :=
          a.levels.take index.toNat ++ ⟨price, quantity⟩ :: a.levels.drop index.toNat }
    else a

/-- PriceLevelArray::eraseAt. -/
def eraseAtPLA (a : PriceLevelArray) (index : ℕ) : PriceLevelArray :=
  if a.levels.length ≤ index then a
  else { a with levels := a.levels.eraseIdx index }

/-- PriceLevelArray::erase (the returned bool is not modelled). -/
def erasePLA (a : PriceLevelArray) (price : ℚ) : PriceLevelArray :=
  let index := findIndex a price
  if index < (a.levels.length : ℤ) ∧
     -PRICE_EPSILON < (a.levels.getD index.toNat ⟨0, 0⟩).price - price ∧
     (a.levels.getD index.toNat ⟨0, 0⟩).price - price < PRICE_EPSILON then
    eraseAtPLA a index.toNat
  else a

/-- The mutating operations of PriceLevelArray. -/
inductive BookOp where
  | insert (price quantity : ℚ)
  | erase (price : ℚ)
deriving Repr

/-- Apply one book operation. -/
def applyBookOp (a : PriceLevelArray) : BookOp → PriceLevelArray
  | BookOp.insert price quantity => insertPLA a price quantity
  | BookOp.erase price => erasePLA a price

/-- A run of insert/erase operations from the empty array. -/
def runBookOps (descending : Bool) (ops : List BookOp) : PriceLevelArray :=
  List.foldl applyBookOp (emptyPLA descending) ops

/-- Order key unifying both sides: negation turns the descending bid
order into the ascending order. -/
def pkey (desc : Bool) (p : ℚ) : ℚ := if desc then -p else p

/-- The stored prices are strictly ordered for their side with adjacent
keys at least PRICE_EPSILON apart (distinct stored prices are never
epsilon-equal). -/
def Separated (desc : Bool) (l : List PriceLevel) : Prop :=
  List.Pairwise (fun x y => pkey desc x.price + PRICE_EPSILON ≤ pkey desc y.price) l

/-- The maintained invariant: epsilon-separated side ordering, capacity
bound, and strictly-above-epsilon quantities. -/
def PLAinv (a : PriceLevelArray) : Prop :=
  Separated a.isDescending a.levels ∧
  a.levels.length ≤ MAX_LEVELS ∧
  ∀ lv ∈ a.levels, PRICE_EPSILON < lv.quantity

/- ----------------------------------------------------------------- -/
/- Theorems                                                           -/
/- ----------------------------------------------------------------- -/

/- ----------------------------------------------------------------- -/
/- Theorems, C1                                                       -/
/- ----------------------------------------------------------------- -/

/-- C1 counterexample: with a handler set whose StartTrading handler
throws, the consumer loop aborts with the error after the first event;
the second event is never processed (the result is not ok for any
continuation state), refuting the claim that handler errors are caught
and the loop continues. -/
theorem C1_counterexample :
    process_events throwingHandlers 0
      [EventType.StartTrading, EventType.OkxMarketUpdate] =
      Except.error "boom" := by
  rfl

/-- C1 amended: an exception thrown by the handler of a popped event is
not caught by the consumer loop; it propagates out of process_events with
the same message, and the remaining events are not processed. -/
theorem C1_amended {σ : Type} (H : StrategyHandlers σ) (s : σ)
    (e : EventType) (rest : List EventType) (msg : String)
    (h : handle_event H s e = Except.error msg) :
    process_events H s (e :: rest) = Except.error msg := by
  simp [process_events, h]

/-- C1 amended, witness: instantiated at the throwing handler set. -/
theorem C1_amended_witness :
    process_events throwingHandlers 0
      [EventType.StartTrading, EventType.BybitMarketUpdate] =
      Except.error "boom" :=
  C1_amended throwingHandlers 0 EventType.StartTrading
    [EventType.BybitMarketUpdate] "boom" (by rfl)

/- ----------------------------------------------------------------- -/
/- Theorems, C4                                                       -/
/- ----------------------------------------------------------------- -/

/-- C4: in a reconciliation cycle whose position query succeeds, a gap
strictly below tick_size yields status NoGap with the mismatch counter
reset to 0; a gap of exactly tick_size falls on the TolerableGap side of
the boundary: it is classified by the tolerable-gap branch, and once the
mismatch counter reaches max_mismatch_count (immediately, when that
configured count is 1) the emitted status is TolerableGap. -/
theorem C4_gap_boundary (cfg : ReconConfig) (internal exch : ℚ)
    (s : ReconState)
    (hlt : cfg.m_tickSize < cfg.m_tolerableThreshold)
    (hone : cfg.m_maxMismatchCount = 1) :
    (|exch - internal| < cfg.m_tickSize →
      (reconcile cfg (some exch) internal s).status = ReconStatus.NoGap ∧
      (reconcile cfg (some exch) internal s).state.m_mismatchCounter = 0) ∧
    (|exch - internal| = cfg.m_tickSize →
      (reconcile cfg (some exch) internal s).status = ReconStatus.TolerableGap) := by
  constructor
  · intro hsmall
    simp [reconcile, hsmall]
  · intro heq
    have hnotlt : ¬ |exch - internal| < cfg.m_tickSize := by
      rw [heq]; exact lt_irrefl _
    have hth : |exch - internal| < cfg.m_tolerableThreshold := by
      rw [heq]; exact hlt
    by_cases hprev : s.gap = |exch - internal|
    · simp [reconcile, hnotlt, hth, hprev, hone]
    · simp [reconcile, hnotlt, hth, hprev, hone]

/-- C4 witness: tick_size 1/1000, threshold 1/2, internal 0, exchange
reported 1/1000 (gap exactly one tick) and 1/2000 (gap below one tick). -/
theorem C4_gap_boundary_witness :
    (reconcile
        { m_tickSize := 1/1000, m_tolerableThreshold := 1/2,
          m_maxMismatchCount := 1, m_maxFailQueryCount := 3,
          m_retryIntervalOnFailure := 1, m_normalReconInterval := 2,
          m_retryIntervalOnMismatch := 3 }
        (some (1/2000)) 0 { gap := 0, m_mismatchCounter := 0, m_reconTryCounter := 0 }).status
      = ReconStatus.NoGap ∧
    (reconcile
        { m_tickSize := 1/1000, m_tolerableThreshold := 1/2,
          m_maxMismatchCount := 1, m_maxFailQueryCount := 3,
          m_retryIntervalOnFailure := 1, m_normalReconInterval := 2,
          m_retryIntervalOnMismatch := 3 }
        (some (1/1000)) 0 { gap := 0, m_mismatchCounter := 0, m_reconTryCounter := 0 }).status
      = ReconStatus.TolerableGap := by
  refine ⟨?_, ?_⟩
  · exact ((C4_gap_boundary _ 0 (1/2000) _ (by norm_num) rfl).1
      (by rw [sub_zero, abs_of_nonneg (by norm_num)]; norm_num)).1
  · exact (C4_gap_boundary _ 0 (1/1000) _ (by norm_num) rfl).2
      (by rw [sub_zero, abs_of_nonneg (by norm_num)])

/- ----------------------------------------------------------------- -/
/- Theorems, C3                                                       -/
/- ----------------------------------------------------------------- -/

/-- C3 counterexample: with retry_limit = 3, the scenario-S4 sequence
does not perform three reconnections.  Already the third close finds
reconnect_attempt = 3 (the initial connection counts as attempt 1), so
3 + 1 > 3 and the router emits reached_retry_limit = true: only two
reconnections were performed (two false emissions precede the true one),
refuting the claim that the fourth close ends the connection. -/
theorem C3_counterexample :
    closesAfterConnect 3 3 =
      { reconnect_attempt := 3, m_wsState := false,
        emitted := [false, false, true] } := by
  rfl

/-- C3 amended: the attempt counter counts every connection attempt, the
initial connection included.  Starting from the initial connection
(attempt 1), each of the first retry_limit − 1 closes emits
reached_retry_limit = false and reconnects (raising the counter by one),
and the retry_limit-th close emits reached_retry_limit = true and remains
disconnected; so only retry_limit − 1 reconnections are performed, and a
connection attempt numbered exactly retry_limit is still performed while
no attempt numbered retry_limit + 1 ever occurs. -/
theorem C3_amended (retry_limit n : ℕ) (hpos : 1 ≤ retry_limit) :
    (n < retry_limit →
      closesAfterConnect retry_limit n =
        { reconnect_attempt := n + 1, m_wsState := false,
          emitted := List.replicate n false }) ∧
    (n = retry_limit →
      closesAfterConnect retry_limit n =
        { reconnect_attempt := retry_limit, m_wsState := false,
          emitted := List.replicate (retry_limit - 1) false ++ [true] }) := by
  induction n with
  | zero =>
    refine ⟨fun _ => ?_, fun h0 => ?_⟩
    · rfl
    · omega
  | succ k ih =>
    constructor
    · intro hk
      have hk' : k < retry_limit := Nat.lt_of_succ_lt hk
      have heq := ih.1 hk'
      show onCloseEvent retry_limit (closesAfterConnect retry_limit k) = _
      rw [heq]
      have hcond : k + 1 + 1 > retry_limit ↔ False := by
        simp only [iff_false]; omega
      simp only [onCloseEvent, handle_disconnect, connect_to_websocket, hcond.mpr,
        gt_iff_lt]
      have : ¬ retry_limit < k + 1 + 1 := by omega
      simp only [this, if_false]
      simp only [RouterState.mk.injEq]
      exact ⟨trivial, trivial, by rw [List.replicate_succ']⟩
    · intro hk
      have hk' : k < retry_limit := by omega
      have heq := ih.1 hk'
      show onCloseEvent retry_limit (closesAfterConnect retry_limit k) = _
      rw [heq]
      have : retry_limit < k + 1 + 1 := by omega
      simp only [onCloseEvent, handle_disconnect, gt_iff_lt, this, if_true]
      simp only [RouterState.mk.injEq]
      have hkeq : k = retry_limit - 1 := by omega
      exact ⟨by omega, trivial, by rw [hkeq]⟩

/-- C3 amended, witness: retry_limit 3 with the S4 close sequence; two
closes still reconnect, the third ends the connection. -/
theorem C3_amended_witness :
    closesAfterConnect 3 2 =
      { reconnect_attempt := 3, m_wsState := false,
        emitted := [false, false] } ∧
    closesAfterConnect 3 3 =
      { reconnect_attempt := 3, m_wsState := false,
        emitted := [false, false, true] } := by
  refine ⟨?_, ?_⟩
  · have h := (C3_amended 3 2 (by norm_num)).1 (by norm_num)
    simpa using h
  · have h := (C3_amended 3 3 (by norm_num)).2 rfl
    simpa using h

/- ----------------------------------------------------------------- -/
/- Map lemmas                                                         -/
/- ----------------------------------------------------------------- -/

theorem lookupOrder_append_new (m : OrderMap) (k : ℕ) (o : OrderHandler)
    (h : lookupOrder m k = none) :
    lookupOrder (m ++ [(k, o)]) k = some o := by
  induction m with
  | nil => simp [lookupOrder]
  | cons p rest ih =>
    by_cases hk : p.1 = k
    · simp [lookupOrder, List.find?, hk] at h
    · simp only [lookupOrder, List.cons_append, List.find?, decide_eq_false hk,
        Bool.false_eq_true] at h ⊢
      exact ih h

theorem lookupOrder_emplace_isSome (m : OrderMap) (k : ℕ) (o : OrderHandler) :
    (lookupOrder (emplaceOrder m k o) k).isSome := by
  unfold emplaceOrder
  cases h : lookupOrder m k with
  | some o' => simp [h]
  | none => rw [lookupOrder_append_new m k o h]; rfl

theorem lookupOrder_updateOrder (m : OrderMap) (k : ℕ)
    (f : OrderHandler → OrderHandler) (o : OrderHandler)
    (h : lookupOrder m k = some o) :
    lookupOrder (updateOrder m k f) k = some (f o) := by
  induction m with
  | nil => simp [lookupOrder] at h
  | cons p rest ih =>
    by_cases hk : p.1 = k
    · simp [lookupOrder, List.find?, updateOrder, hk] at h ⊢
      rw [h]
    · simp only [lookupOrder, updateOrder, List.map, List.find?, if_neg hk,
        decide_eq_false hk, Bool.false_eq_true] at h ⊢
      exact ih h

theorem lookupOrder_updateOrder_isSome (m : OrderMap) (k : ℕ)
    (f : OrderHandler → OrderHandler) (h : (lookupOrder m k).isSome) :
    (lookupOrder (updateOrder m k f) k).isSome := by
  cases ho : lookupOrder m k with
  | none => rw [ho] at h; simp at h
  | some o => rw [lookupOrder_updateOrder m k f o ho]; rfl

/- ----------------------------------------------------------------- -/
/- Theorems, C2                                                       -/
/- ----------------------------------------------------------------- -/

/-- C2 counterexample: with the order-routing websocket not ready,
cancelOrder and modifyOrder do not return 0; called with client-order-id
7 on the empty order manager they return 7 (the id itself), refuting the
claim that all three operations return 0 in that situation. -/
theorem C2_counterexample :
    (cancelOrder false 0 7 initialOM).2 = 7 ∧
    (modifyOrder false 0 7 1 1 initialOM).2 = 7 := by
  constructor <;> rfl

/-- C2 amended: when the order-routing websocket is not ready, each of
placeOrder, cancelOrder and modifyOrder marks the affected order
REJECTED with reject reason WS_FAILURE and invokes the order-status
callback with it; placeOrder returns 0, while cancelOrder and
modifyOrder return the client-order-id passed in. -/
theorem C2_amended (s : OMState) (r : ℕ) (p q np nq : ℚ) (b : Bool) (id : ℕ) :
    ((placeOrder false r p q b s).2 = 0 ∧
      (placeOrder false r p q b s).1.callbackLog =
        s.callbackLog ++ [{ createOrderHandler with
          m_status := OrderStatus.REJECTED, m_reason := RejectReason.WS_FAILURE }]) ∧
    ((cancelOrder false r id s).2 = id ∧
      ∃ o, (cancelOrder false r id s).1.callbackLog = s.callbackLog ++ [o] ∧
        o.m_status = OrderStatus.REJECTED ∧ o.m_reason = RejectReason.WS_FAILURE ∧
        lookupOrder (cancelOrder false r id s).1.orderMap id = some o) ∧
    ((modifyOrder false r id np nq s).2 = id ∧
      ∃ o, (modifyOrder false r id np nq s).1.callbackLog = s.callbackLog ++ [o] ∧
        o.m_status = OrderStatus.REJECTED ∧ o.m_reason = RejectReason.WS_FAILURE ∧
        lookupOrder (modifyOrder false r id np nq s).1.orderMap id = some o) := by
  refine ⟨⟨rfl, rfl⟩, ?_, ?_⟩
  · cases h : lookupOrder s.orderMap id with
    | some o0 =>
      refine ⟨by simp [cancelOrder, h], ?_⟩
      refine ⟨{ o0 with m_status := OrderStatus.REJECTED, m_reason := RejectReason.WS_FAILURE }, ?_, rfl, rfl, ?_⟩
      · simp [cancelOrder, h]
      · simp only [cancelOrder, h]
        simp only [Bool.not_eq_true, Option.getD_some, if_pos, Bool.false_eq_true,
          not_false_iff, ite_true]
        exact lookupOrder_updateOrder s.orderMap id _ o0 h
    | none =>
      have hl : lookupOrder (emplaceOrder s.orderMap id createOrderHandler) id =
          some createOrderHandler := by
        unfold emplaceOrder
        rw [h]
        exact lookupOrder_append_new s.orderMap id createOrderHandler h
      refine ⟨by simp [cancelOrder, h], ?_⟩
      refine ⟨{ createOrderHandler with m_status := OrderStatus.REJECTED, m_reason := RejectReason.WS_FAILURE }, ?_, rfl, rfl, ?_⟩
      · simp [cancelOrder, h, hl]
      · simp only [cancelOrder, h]
        simp only [hl, Bool.not_eq_true, Option.getD_some, Bool.false_eq_true,
          not_false_iff, ite_true]
        exact lookupOrder_updateOrder _ id _ createOrderHandler hl
  · cases h : lookupOrder s.orderMap id with
    | some o0 =>
      refine ⟨by simp [modifyOrder, h], ?_⟩
      refine ⟨{ o0 with m_status := OrderStatus.REJECTED, m_reason := RejectReason.WS_FAILURE }, ?_, rfl, rfl, ?_⟩
      · simp [modifyOrder, h]
      · simp only [modifyOrder, h]
        simp only [Bool.not_eq_true, Option.getD_some, Bool.false_eq_true,
          not_false_iff, ite_true]
        exact lookupOrder_updateOrder s.orderMap id _ o0 h
    | none =>
      have hl : lookupOrder (emplaceOrder s.orderMap id createOrderHandler) id =
          some createOrderHandler := by
        unfold emplaceOrder
        rw [h]
        exact lookupOrder_append_new s.orderMap id createOrderHandler h
      refine ⟨by simp [modifyOrder, h], ?_⟩
      refine ⟨{ createOrderHandler with m_status := OrderStatus.REJECTED, m_reason := RejectReason.WS_FAILURE }, ?_, rfl, rfl, ?_⟩
      · simp [modifyOrder, h, hl]
      · simp only [modifyOrder, h]
        simp only [hl, Bool.not_eq_true, Option.getD_some, Bool.false_eq_true,
          not_false_iff, ite_true]
        exact lookupOrder_updateOrder _ id _ createOrderHandler hl

/- ----------------------------------------------------------------- -/
/- Theorems, C9 and C10                                               -/
/- ----------------------------------------------------------------- -/

/-- C9: cancelOrder and modifyOrder called with a client-order-id absent
from the order map synthesize a fresh default handler and insert it under
that id before proceeding (the id is mapped afterwards, whatever the
websocket state and router result), whereas the inbound channel updates
(live / canceled / partially filled / filled) log the
not-from-this-run warning and drop the update, leaving everything but the
warning counter unchanged. -/
theorem C9_unknown_id (s : OMState) (w : Bool) (r trackCnt id : ℕ)
    (np nq px sz accF fillSz factor : ℚ)
    (h : lookupOrder s.orderMap id = none) :
    (lookupOrder (cancelOrder w r id s).1.orderMap id).isSome ∧
    (lookupOrder (modifyOrder w r id np nq s).1.orderMap id).isSome ∧
    applyChannelUpdate trackCnt factor (ExchUpdate.stateLive id px sz) s =
      { s with warningCount := s.warningCount + 1 } ∧
    applyChannelUpdate trackCnt factor (ExchUpdate.stateCanceled id accF) s =
      { s with warningCount := s.warningCount + 1 } ∧
    applyChannelUpdate trackCnt factor (ExchUpdate.statePartialFill id accF fillSz) s =
      { s with warningCount := s.warningCount + 1 } ∧
    applyChannelUpdate trackCnt factor (ExchUpdate.stateFilled id accF fillSz) s =
      { s with warningCount := s.warningCount + 1 } := by
  have hl : lookupOrder (emplaceOrder s.orderMap id createOrderHandler) id =
      some createOrderHandler := by
    unfold emplaceOrder
    rw [h]
    exact lookupOrder_append_new s.orderMap id createOrderHandler h
  refine ⟨?_, ?_, ?_, ?_, ?_, ?_⟩
  · simp only [cancelOrder, h]
    cases w with
    | false =>
      simp only [Bool.false_eq_true, not_false_iff, ite_true]
      exact lookupOrder_updateOrder_isSome _ id _ (by rw [hl]; rfl)
    | true =>
      simp only [not_true, ite_false]
      by_cases hr : r = 0
      · simp only [hr, ite_true]
        exact lookupOrder_updateOrder_isSome _ id _ (by rw [hl]; rfl)
      · simp only [hr, ite_false]
        exact lookupOrder_updateOrder_isSome _ id _ (by rw [hl]; rfl)
  · simp only [modifyOrder, h]
    cases w with
    | false =>
      simp only [Bool.false_eq_true, not_false_iff, ite_true]
      exact lookupOrder_updateOrder_isSome _ id _ (by rw [hl]; rfl)
    | true =>
      simp only [not_true, ite_false]
      by_cases hr : r = 0
      · simp only [hr, ite_true]
        exact lookupOrder_updateOrder_isSome _ id _ (by rw [hl]; rfl)
      · simp only [hr, ite_false]
        exact lookupOrder_updateOrder_isSome _ id _ (by rw [hl]; rfl)
  · simp [applyChannelUpdate, h]
  · simp [applyChannelUpdate, h]
  · simp [applyChannelUpdate, h]
  · simp [applyChannelUpdate, h]

/-- C9 witness: the empty order manager, id 7. -/
theorem C9_unknown_id_witness :
    (lookupOrder (cancelOrder true 3 7 initialOM).1.orderMap 7).isSome ∧
    (lookupOrder (modifyOrder true 3 7 1 2 initialOM).1.orderMap 7).isSome ∧
    applyChannelUpdate 5 1 (ExchUpdate.stateLive 7 1 1) initialOM =
      { initialOM with warningCount := initialOM.warningCount + 1 } ∧
    applyChannelUpdate 5 1 (ExchUpdate.stateCanceled 7 0) initialOM =
      { initialOM with warningCount := initialOM.warningCount + 1 } ∧
    applyChannelUpdate 5 1 (ExchUpdate.statePartialFill 7 0 0) initialOM =
      { initialOM with warningCount := initialOM.warningCount + 1 } ∧
    applyChannelUpdate 5 1 (ExchUpdate.stateFilled 7 0 0) initialOM =
      { initialOM with warningCount := initialOM.warningCount + 1 } :=
  C9_unknown_id initialOM true 3 5 7 1 2 1 1 0 0 1 rfl

/-- C10: getOrderStatus returns PENDING for a client-order-id absent
from the order map, exactly as it does for a tracked order whose stored
status is PENDING: the two situations are indistinguishable through this
query. -/
theorem C10_unknown_is_pending (s : OMState) (id : ℕ) (o : OrderHandler) :
    (lookupOrder s.orderMap id = none →
      getOrderStatus s id = OrderStatus.PENDING) ∧
    (lookupOrder s.orderMap id = some o → o.m_status = OrderStatus.PENDING →
      getOrderStatus s id = OrderStatus.PENDING) := by
  constructor
  · intro h
    simp [getOrderStatus, h]
  · intro h hst
    simp [getOrderStatus, h, hst]

/-- C10 witness: a map holding one genuinely pending order under id 5;
id 7 is unknown, and both queries answer PENDING. -/
theorem C10_unknown_is_pending_witness :
    getOrderStatus { initialOM with
      orderMap := [(5, { createOrderHandler with m_status := OrderStatus.PENDING })] } 7 =
      OrderStatus.PENDING ∧
    getOrderStatus { initialOM with
      orderMap := [(5, { createOrderHandler with m_status := OrderStatus.PENDING })] } 5 =
      OrderStatus.PENDING := by
  constructor
  · exact (C10_unknown_is_pending _ 7
      { createOrderHandler with m_status := OrderStatus.PENDING }).1 (by rfl)
  · exact (C10_unknown_is_pending _ 5
      { createOrderHandler with m_status := OrderStatus.PENDING }).2 (by rfl) rfl

/- ----------------------------------------------------------------- -/
/- Theorems, C7                                                       -/
/- ----------------------------------------------------------------- -/

/-- C7: with total exposure e = quote_position + hedge_position, the
unhedged exposure computed by the hedger equals
max(0, |e| − potential_fills) * sign(e), where potential_fills sums the
open hedge-order quantity on the exposure-reducing side (asks when
e > 0, bids when e < 0); no hedge order is sent when |e| or the unhedged
exposure is below min_hedge_size, and otherwise a market order of size
|unhedged exposure| is sent on the exposure-reducing side. -/
theorem C7_hedge_netting (m : OrderMap) (quotePos hedgePos minHedgeSize : ℚ) :
    calculate_unhedged_exposure m (quotePos + hedgePos) =
      spec_unhedged_exposure m (quotePos + hedgePos) ∧
    (|quotePos + hedgePos| < minHedgeSize ∨
        |calculate_unhedged_exposure m (quotePos + hedgePos)| < minHedgeSize →
      hedge m quotePos hedgePos minHedgeSize = none) ∧
    (0 < minHedgeSize →
      minHedgeSize ≤ |quotePos + hedgePos| →
      minHedgeSize ≤ |calculate_unhedged_exposure m (quotePos + hedgePos)| →
      (0 < quotePos + hedgePos →
        hedge m quotePos hedgePos minHedgeSize =
          some (|calculate_unhedged_exposure m (quotePos + hedgePos)|, SideType.Ask)) ∧
      (quotePos + hedgePos < 0 →
        hedge m quotePos hedgePos minHedgeSize =
          some (|calculate_unhedged_exposure m (quotePos + hedgePos)|, SideType.Bid))) := by
  set e := quotePos + hedgePos with he
  refine ⟨?_, ?_, ?_⟩
  · unfold calculate_unhedged_exposure spec_unhedged_exposure reducingSide qsign
    rcases lt_trichotomy 0 e with hpos | hzero | hneg
    · simp only [hpos, if_true]
      set pa := get_potential_fill_size m SideType.Ask
      rw [abs_of_pos hpos]
      by_cases hlt : pa < e
      · rw [if_pos hlt, max_eq_right (le_of_lt (sub_pos.mpr hlt)), mul_one]
      · rw [if_neg hlt, max_eq_left (sub_nonpos.mpr (le_of_not_lt hlt)), zero_mul]
    · simp only [← hzero, lt_irrefl, if_false, mul_zero]
    · have hnpos : ¬ 0 < e := not_lt.mpr (le_of_lt hneg)
      simp only [hnpos, if_false, hneg, if_true]
      set pb := get_potential_fill_size m SideType.Bid
      rw [abs_of_neg hneg]
      by_cases hlt : pb < -e
      · have hmax : max 0 (-e - pb) = -e - pb :=
          max_eq_right (le_of_lt (sub_pos.mpr hlt))
        rw [if_pos hlt, hmax]
        ring
      · rw [if_neg hlt, max_eq_left (sub_nonpos.mpr (le_of_not_lt hlt)), zero_mul]
  · intro hcase
    unfold hedge is_exposure_significant
    rcases hcase with hsmall | hsmall
    · rw [if_pos (not_le.mpr hsmall)]
    · by_cases htot : minHedgeSize ≤ |e|
      · rw [if_neg (not_not.mpr htot), if_pos (not_le.mpr hsmall)]
      · rw [if_pos htot]
  · intro hmin htot hun
    have hunne : calculate_unhedged_exposure m e ≠ 0 := by
      intro h0
      rw [h0, abs_zero] at hun
      exact absurd (lt_of_lt_of_le hmin hun) (lt_irrefl 0)
    constructor
    · intro hpos
      have hnonneg : 0 ≤ calculate_unhedged_exposure m e := by
        unfold calculate_unhedged_exposure
        simp only [hpos, if_true]
        by_cases hlt : get_potential_fill_size m SideType.Ask < e
        · rw [if_pos hlt]
          exact le_of_lt (sub_pos.mpr hlt)
        · rw [if_neg hlt]
      have hupos : 0 < calculate_unhedged_exposure m e :=
        lt_of_le_of_ne hnonneg (Ne.symm hunne)
      unfold hedge is_exposure_significant
      rw [if_neg (not_not.mpr htot), if_neg (not_not.mpr hun)]
      simp only [hupos, if_true]
    · intro hneg
      have hnonpos : calculate_unhedged_exposure m e ≤ 0 := by
        unfold calculate_unhedged_exposure
        have hnpos : ¬ 0 < e := not_lt.mpr (le_of_lt hneg)
        simp only [hnpos, if_false, hneg, if_true]
        by_cases hlt : get_potential_fill_size m SideType.Bid < -e
        · rw [if_pos hlt]
          linarith
        · rw [if_neg hlt]
      have hunneg : ¬ 0 < calculate_unhedged_exposure m e :=
        not_lt.mpr hnonpos
      unfold hedge is_exposure_significant
      rw [if_neg (not_not.mpr htot), if_neg (not_not.mpr hun)]
      simp only [hunneg, if_false]

/-- C7 witness: one live sell hedge order of remaining size 2, quote
position 5, min hedge size 1: exposure 5, potential ask fills 2,
unhedged exposure 3, so a market ask of size 3 is sent; and with quote
position 1/2 below min hedge size 1 nothing is sent. -/
theorem C7_hedge_netting_witness :
    calculate_unhedged_exposure
        [(1, { createOrderHandler with m_side := false, m_status := OrderStatus.LIVE, m_qtyOnExch := 2 })] (5 + 0) =
      spec_unhedged_exposure
        [(1, { createOrderHandler with m_side := false, m_status := OrderStatus.LIVE, m_qtyOnExch := 2 })] (5 + 0) ∧
    hedge [(1, { createOrderHandler with m_side := false, m_status := OrderStatus.LIVE, m_qtyOnExch := 2 })] 5 0 1 =
      some (3, SideType.Ask) ∧
    hedge [] (1/2) 0 1 = none := by
  have hc : calculate_unhedged_exposure
      [(1, { createOrderHandler with m_side := false, m_status := OrderStatus.LIVE, m_qtyOnExch := 2 })]
      ((5 : ℚ) + 0) = 3 := by
    simp [calculate_unhedged_exposure, get_potential_fill_size, getOrdersByStatus,
      isBidSide, createOrderHandler]
    norm_num
  refine ⟨(C7_hedge_netting _ 5 0 1).1, ?_, ?_⟩
  · have h := ((C7_hedge_netting
      [(1, { createOrderHandler with m_side := false, m_status := OrderStatus.LIVE, m_qtyOnExch := 2 })] 5 0 1).2.2
      (by norm_num) (by norm_num) (by rw [hc]; norm_num)).1 (by norm_num)
    rw [h, hc]
    norm_num
  · exact (C7_hedge_netting [] (1/2) 0 1).2.1 (Or.inl (by rw [abs_of_nonneg (by norm_num)]; norm_num))

/- ----------------------------------------------------------------- -/
/- Queue lemmas for C5                                                -/
/- ----------------------------------------------------------------- -/

theorem count_evictQueue_le (trackCnt id : ℕ) (q : List ℕ) (m : OrderMap) :
    List.count id (evictQueue trackCnt q m).1 ≤ List.count id q := by
  induction q generalizing m with
  | nil => simp [evictQueue]
  | cons x rest ih =>
    unfold evictQueue
    by_cases hlen : trackCnt < (x :: rest).length
    · rw [if_pos hlen]
      calc List.count id (evictQueue trackCnt rest (eraseOrder m x)).1
          ≤ List.count id rest := ih (eraseOrder m x)
        _ ≤ List.count id (x :: rest) := by
            rw [List.count_cons]
            omega
    · rw [if_neg hlen]

theorem queueOcc_maintain_le (trackCnt id : ℕ) (s : OMState) :
    queueOcc id (maintainOrderLimit trackCnt s) ≤ queueOcc id s := by
  unfold maintainOrderLimit queueOcc
  simp only
  have h1 := count_evictQueue_le trackCnt id s.cancelQueue s.orderMap
  have h2 := count_evictQueue_le trackCnt id s.rejectedQueue
    (evictQueue trackCnt s.cancelQueue s.orderMap).2
  have h3 := count_evictQueue_le trackCnt id s.filledQueue
    (evictQueue trackCnt s.rejectedQueue
      (evictQueue trackCnt s.cancelQueue s.orderMap).2).2
  omega

theorem queueOcc_placeOrder (id : ℕ) (w : Bool) (r : ℕ) (p q : ℚ) (b : Bool)
    (s : OMState) : queueOcc id (placeOrder w r p q b s).1 = queueOcc id s := by
  unfold placeOrder queueOcc
  cases w
  · rfl
  · simp only [not_true, ite_false]
    split <;> rfl

theorem queueOcc_cancelOrder (id : ℕ) (w : Bool) (r cid : ℕ)
    (s : OMState) : queueOcc id (cancelOrder w r cid s).1 = queueOcc id s := by
  unfold cancelOrder queueOcc
  cases h : lookupOrder s.orderMap cid <;>
    cases w <;>
      simp only [Bool.false_eq_true, not_false_iff, ite_true, not_true, ite_false] <;>
        first
          | rfl
          | (split <;> rfl)

theorem queueOcc_modifyOrder (id : ℕ) (w : Bool) (r cid : ℕ) (np nq : ℚ)
    (s : OMState) : queueOcc id (modifyOrder w r cid np nq s).1 = queueOcc id s := by
  unfold modifyOrder queueOcc
  cases h : lookupOrder s.orderMap cid <;>
    cases w <;>
      simp only [Bool.false_eq_true, not_false_iff, ite_true, not_true, ite_false] <;>
        first
          | rfl
          | (split <;> rfl)

theorem queueOcc_step_le (trackCnt : ℕ) (factor : ℚ) (op : OMOp) (s : OMState)
    (id : ℕ) :
    queueOcc id (applyOMOp trackCnt factor op s) ≤
      queueOcc id s + List.count id (pushedIds op s) := by
  cases op with
  | place w r p q b =>
    simp only [applyOMOp, pushedIds, List.count_nil, Nat.add_zero]
    exact le_of_eq (queueOcc_placeOrder id w r p q b s)
  | cancel w r cid =>
    simp only [applyOMOp, pushedIds, List.count_nil, Nat.add_zero]
    exact le_of_eq (queueOcc_cancelOrder id w r cid s)
  | modify w r cid np nq =>
    simp only [applyOMOp, pushedIds, List.count_nil, Nat.add_zero]
    exact le_of_eq (queueOcc_modifyOrder id w r cid np nq s)
  | update u =>
    cases u with
    | reject k code =>
      cases h : lookupOrder s.orderMap k with
      | none => simp [applyOMOp, applyChannelUpdate, applyReject, pushedIds, h]
      | some o =>
        simp only [applyOMOp, applyChannelUpdate, applyReject, pushedIds, h]
        by_cases hp : (rejectPushesUnconditionally code || ! o.m_orderHasBeenLive) = true
        · rw [if_pos hp, if_pos hp]
          have hm := queueOcc_maintain_le trackCnt id
            { s with
              orderMap := updateOrder s.orderMap k (fun _ => { o with m_status := OrderStatus.REJECTED, m_reason := rejectReasonOfCode code })
              rejectedQueue := s.rejectedQueue ++ [o.m_clientOrderId] }
          refine le_trans (le_of_eq rfl) (le_trans hm ?_)
          unfold queueOcc
          simp only [List.count_append, List.count_singleton']
          omega
        · rw [if_neg hp, if_neg hp]
          simp [queueOcc]
    | ackOrder k => simp [applyOMOp, applyChannelUpdate, pushedIds]
    | ackAmend k => simp [applyOMOp, applyChannelUpdate, pushedIds]
    | ackCancel k => simp [applyOMOp, applyChannelUpdate, pushedIds]
    | stateLive k px sz =>
      cases h : lookupOrder s.orderMap k with
      | none => simp [applyOMOp, applyChannelUpdate, pushedIds, h, queueOcc]
      | some o => simp [applyOMOp, applyChannelUpdate, pushedIds, h, queueOcc]
    | stateCanceled k accF =>
      cases h : lookupOrder s.orderMap k with
      | none => simp [applyOMOp, applyChannelUpdate, pushedIds, h, queueOcc]
      | some o =>
        simp only [applyOMOp, applyChannelUpdate, pushedIds, h]
        have hm := queueOcc_maintain_le trackCnt id
          { s with
            orderMap := updateOrder s.orderMap k (fun _ => { o with m_reason := RejectReason.NONE, m_status := OrderStatus.CANCELED, m_cumFilledQty := accF * factor })
            cancelQueue := s.cancelQueue ++ [o.m_clientOrderId] }
        refine le_trans (le_of_eq rfl) (le_trans hm ?_)
        unfold queueOcc
        simp only [List.count_append, List.count_singleton']
        omega
    | statePartialFill k accF fillSz =>
      cases h : lookupOrder s.orderMap k with
      | none => simp [applyOMOp, applyChannelUpdate, pushedIds, h, queueOcc]
      | some o => simp [applyOMOp, applyChannelUpdate, pushedIds, h, queueOcc]
    | stateFilled k accF fillSz =>
      cases h : lookupOrder s.orderMap k with
      | none => simp [applyOMOp, applyChannelUpdate, pushedIds, h, queueOcc]
      | some o =>
        simp only [applyOMOp, applyChannelUpdate, pushedIds, h]
        have hm := queueOcc_maintain_le trackCnt id
          { s with
            orderMap := updateOrder s.orderMap k (fun _ => { o with m_reason := RejectReason.NONE, m_status := OrderStatus.FILLED, m_cumFilledQty := accF * factor })
            filledQueue := s.filledQueue ++ [o.m_clientOrderId] }
        refine le_trans (le_of_eq rfl) (le_trans hm ?_)
        unfold queueOcc
        simp only [List.count_append, List.count_singleton']
        omega

theorem queueOcc_run_le (trackCnt : ℕ) (factor : ℚ) (ops : List OMOp)
    (s : OMState) (id : ℕ) :
    queueOcc id (List.foldl (fun s op => applyOMOp trackCnt factor op s) s ops) ≤
      queueOcc id s + List.count id (tracePushes trackCnt factor ops s) := by
  induction ops generalizing s with
  | nil => simp [tracePushes]
  | cons op rest ih =>
    simp only [List.foldl_cons, tracePushes, List.count_append]
    calc queueOcc id (List.foldl (fun s op => applyOMOp trackCnt factor op s)
            (applyOMOp trackCnt factor op s) rest)
        ≤ queueOcc id (applyOMOp trackCnt factor op s) +
            List.count id (tracePushes trackCnt factor rest (applyOMOp trackCnt factor op s)) :=
          ih (applyOMOp trackCnt factor op s)
      _ ≤ queueOcc id s + List.count id (pushedIds op s) +
            List.count id (tracePushes trackCnt factor rest (applyOMOp trackCnt factor op s)) := by
          have := queueOcc_step_le trackCnt factor op s id
          omega
      _ = queueOcc id s + (List.count id (pushedIds op s) +
            List.count id (tracePushes trackCnt factor rest (applyOMOp trackCnt factor op s))) := by
          omega

/- ----------------------------------------------------------------- -/
/- Theorems, C5                                                       -/
/- ----------------------------------------------------------------- -/

/-- C5 counterexample: a reachable state in which one client-order-id
sits in two retention queues.  Place order 1, receive a canceled update
(pushing cancelQueue), then receive a reject ack with sCode 51503 —
whose branch pushes rejectedQueue unconditionally — and id 1 is in both
cancelQueue and rejectedQueue while still in the order map, refuting the
at-most-one-queue invariant. -/
theorem C5_counterexample :
    (runOMOps 2 1
      [OMOp.place true 1 100 1 true,
       OMOp.update (ExchUpdate.stateCanceled 1 0),
       OMOp.update (ExchUpdate.reject 1 "51503")]).cancelQueue = [1] ∧
    (runOMOps 2 1
      [OMOp.place true 1 100 1 true,
       OMOp.update (ExchUpdate.stateCanceled 1 0),
       OMOp.update (ExchUpdate.reject 1 "51503")]).rejectedQueue = [1] ∧
    (lookupOrder (runOMOps 2 1
      [OMOp.place true 1 100 1 true,
       OMOp.update (ExchUpdate.stateCanceled 1 0),
       OMOp.update (ExchUpdate.reject 1 "51503")]).orderMap 1).isSome := by
  refine ⟨rfl, rfl, rfl⟩

/-- C5 amended: queue membership is bounded by the number of queue
pushes a run performs for an id, so the three retention queues are
disjoint per order in every run that enqueues each client-order-id at
most once — i.e. as long as an order reaches at most one terminal
transition that enqueues it (one canceled / filled update, or one
enqueuing reject).  Conflicting terminal updates for the same order
(e.g. canceled followed by a 51503/51400 reject, as in the
counterexample) break disjointness. -/
theorem C5_amended (trackCnt : ℕ) (factor : ℚ) (ops : List OMOp) (id : ℕ)
    (h : List.count id (tracePushes trackCnt factor ops initialOM) ≤ 1) :
    queueOcc id (runOMOps trackCnt factor ops) ≤ 1 ∧
    ¬ (id ∈ (runOMOps trackCnt factor ops).cancelQueue ∧
        id ∈ (runOMOps trackCnt factor ops).rejectedQueue) ∧
    ¬ (id ∈ (runOMOps trackCnt factor ops).cancelQueue ∧
        id ∈ (runOMOps trackCnt factor ops).filledQueue) ∧
    ¬ (id ∈ (runOMOps trackCnt factor ops).rejectedQueue ∧
        id ∈ (runOMOps trackCnt factor ops).filledQueue) := by
  have hocc : queueOcc id (runOMOps trackCnt factor ops) ≤ 1 := by
    have h0 := queueOcc_run_le trackCnt factor ops initialOM id
    have hinit : queueOcc id initialOM = 0 := rfl
    unfold runOMOps
    omega
  refine ⟨hocc, ?_, ?_, ?_⟩
  · rintro ⟨h1, h2⟩
    have c1 := List.count_pos_iff.mpr h1
    have c2 := List.count_pos_iff.mpr h2
    unfold queueOcc at hocc
    omega
  · rintro ⟨h1, h2⟩
    have c1 := List.count_pos_iff.mpr h1
    have c2 := List.count_pos_iff.mpr h2
    unfold queueOcc at hocc
    omega
  · rintro ⟨h1, h2⟩
    have c1 := List.count_pos_iff.mpr h1
    have c2 := List.count_pos_iff.mpr h2
    unfold queueOcc at hocc
    omega

/-- C5 amended, witness: a run that places order 1 and fills it — one
push — leaves id 1 in the filled queue only. -/
theorem C5_amended_witness :
    queueOcc 1 (runOMOps 2 1
      [OMOp.place true 1 100 1 true,
       OMOp.update (ExchUpdate.stateFilled 1 1 1)]) ≤ 1 ∧
    ¬ ((1 : ℕ) ∈ (runOMOps 2 1
        [OMOp.place true 1 100 1 true,
         OMOp.update (ExchUpdate.stateFilled 1 1 1)]).cancelQueue ∧
       (1 : ℕ) ∈ (runOMOps 2 1
        [OMOp.place true 1 100 1 true,
         OMOp.update (ExchUpdate.stateFilled 1 1 1)]).rejectedQueue) := by
  have h := C5_amended 2 1
    [OMOp.place true 1 100 1 true,
     OMOp.update (ExchUpdate.stateFilled 1 1 1)] 1 (by rfl)
  exact ⟨h.1, h.2.1⟩

/- ----------------------------------------------------------------- -/
/- Ladder lemmas for C6                                               -/
/- ----------------------------------------------------------------- -/

theorem ladderEmplace_head (side : SideType) (tol : ℚ) (l : List ℚ) (k : ℚ) :
    (ladderEmplace side tol l k).head? = some k ∨
      (ladderEmplace side tol l k).head? = l.head? := by
  cases l with
  | nil => left; rfl
  | cons e es =>
    unfold ladderEmplace
    by_cases h1 : ladderComp side tol k e = true
    · rw [if_pos h1]; left; rfl
    · rw [if_neg h1]
      by_cases h2 : ladderComp side tol e k = true
      · rw [if_pos h2]; right; rfl
      · rw [if_neg h2]; right; rfl

theorem chain_ladderEmplace (side : SideType) (tol : ℚ) (l : List ℚ) (k : ℚ)
    (h : List.Chain' (fun a b => ladderComp side tol a b = true) l) :
    List.Chain' (fun a b => ladderComp side tol a b = true)
      (ladderEmplace side tol l k) := by
  induction l with
  | nil => simp [ladderEmplace]
  | cons e es ih =>
    unfold ladderEmplace
    by_cases h1 : ladderComp side tol k e = true
    · rw [if_pos h1]
      exact List.chain'_cons'.mpr ⟨fun y hy => by
        cases es <;> simp_all [List.chain'_cons'.mp h], h⟩
    · rw [if_neg h1]
      by_cases h2 : ladderComp side tol e k = true
      · rw [if_pos h2]
        have htail := (List.chain'_cons'.mp h).2
        have hhead := (List.chain'_cons'.mp h).1
        refine List.chain'_cons'.mpr ⟨?_, ih htail⟩
        intro y hy
        rcases ladderEmplace_head side tol es k with hh | hh
        · rw [hh] at hy
          simp only [Option.mem_def, Option.some.injEq] at hy
          rw [hy] at h2
          exact h2
        · rw [hh] at hy
          exact hhead y hy
      · rw [if_neg h2]
        exact h

theorem chain_buildLadder_fold (side : SideType) (tol : ℚ) (prices acc : List ℚ)
    (h : List.Chain' (fun a b => ladderComp side tol a b = true) acc) :
    List.Chain' (fun a b => ladderComp side tol a b = true)
      (List.foldl (ladderEmplace side tol) acc prices) := by
  induction prices generalizing acc with
  | nil => exact h
  | cons p rest ih =>
    exact ih (ladderEmplace side tol acc p) (chain_ladderEmplace side tol acc p h)

/- ----------------------------------------------------------------- -/
/- Theorems, C6                                                       -/
/- ----------------------------------------------------------------- -/

/-- C6: after refresh_target_orders rebuilds a side's ladder (with or
without touch/postable shifting), any two adjacent ladder entries are
separated by at least price_tick_size with the earlier entry strictly
more inner — the tolerance comparator of the target map refuses keys
within one tick of an existing entry; and the shift pass moves a price
that is inner-or-equal to its (already shifted) more-inner neighbor to
exactly one tick away from that neighbor in the away direction. -/
theorem C6_ladder_separation (cfg : TOMConfig) (side : SideType)
    (offsets : List ℚ) (quote_mid touch_price local_ask local_bid : ℚ) :
    List.Chain'
      (fun a b => sideIsInner side a b = true ∧ cfg.price_tick_size ≤ |b - a|)
      (refresh_target_orders cfg side offsets quote_mid touch_price
        local_ask local_bid) ∧
    (∀ (prev p : ℚ) (rest : List ℚ), sideIsInnerOrEqual side p prev = true →
      shiftTailLoop side cfg.price_tick_size prev (p :: rest) =
        sideAddAway side prev cfg.price_tick_size ::
          shiftTailLoop side cfg.price_tick_size
            (sideAddAway side prev cfg.price_tick_size) rest) := by
  constructor
  · have himp : ∀ a b : ℚ, ladderComp side cfg.price_tick_size a b = true →
        sideIsInner side a b = true ∧ cfg.price_tick_size ≤ |b - a| := by
      intro a b hab
      unfold ladderComp at hab
      by_cases habs : |a - b| < cfg.price_tick_size
      · rw [if_pos habs] at hab
        exact absurd hab (by simp)
      · rw [if_neg habs] at hab
        refine ⟨hab, ?_⟩
        rw [abs_sub_comm]
        exact le_of_not_lt habs
    unfold refresh_target_orders buildLadder
    exact List.Chain'.imp himp
      (chain_buildLadder_fold side cfg.price_tick_size _ [] List.chain'_nil)
  · intro prev p rest h
    simp [shiftTailLoop, h]

/-- C6 witness: tick 1/100 on the ask side; a second ladder price equal
to the (shifted) first is pushed to exactly one tick above it. -/
theorem C6_ladder_separation_witness :
    shiftTailLoop SideType.Ask (1/100) 100 [100] = [100 + 1/100] := by
  have h := (C6_ladder_separation
    { price_tick_size := 1/100, price_round_mode := PriceRoundMode.Nearest,
      enable_touch_price := true, ticks_from_touch := 1,
      enable_postable_price := false, ticks_from_postable := 0,
      offset_base := OffsetBase.Mid }
    SideType.Ask [] 0 0 0 0).2 100 100 [] (by decide)
  simpa [shiftTailLoop, sideAddAway] using h

theorem pkey_abs (desc : Bool) (a b : ℚ) : |pkey desc a - pkey desc b| = |a - b| := by
  cases desc
  · rfl
  · show |-a - -b| = |a - b|
    rw [show -a - -b = -(a - b) by ring, abs_neg]

theorem findIndexAux_spec (l : List PriceLevel) (desc : Bool) (price : ℚ)
    (hs : ∀ i j : ℕ, i < j → j < l.length →
      pkey desc (l.getD i ⟨0,0⟩).price + PRICE_EPSILON ≤ pkey desc (l.getD j ⟨0,0⟩).price) :
    ∀ left right : ℤ, 0 ≤ left → right < (l.length : ℤ) → left ≤ right + 1 →
    (∀ j : ℕ, (j : ℤ) < left → j < l.length →
      pkey desc (l.getD j ⟨0,0⟩).price ≤ pkey desc price - PRICE_EPSILON) →
    (∀ j : ℕ, right < (j : ℤ) → j < l.length →
      pkey desc price + PRICE_EPSILON ≤ pkey desc (l.getD j ⟨0,0⟩).price) →
    (0 ≤ findIndexAux l desc price left right ∧
     findIndexAux l desc price left right ≤ (l.length : ℤ) ∧
     ((findIndexAux l desc price left right < (l.length : ℤ) ∧
       |(l.getD (findIndexAux l desc price left right).toNat ⟨0,0⟩).price - price| <
         PRICE_EPSILON) ∨
      ((∀ j : ℕ, (j : ℤ) < findIndexAux l desc price left right → j < l.length →
          pkey desc (l.getD j ⟨0,0⟩).price ≤ pkey desc price - PRICE_EPSILON) ∧
       (∀ j : ℕ, findIndexAux l desc price left right ≤ (j : ℤ) → j < l.length →
          pkey desc price + PRICE_EPSILON ≤ pkey desc (l.getD j ⟨0,0⟩).price)))) := by
  have hEPS : (0 : ℚ) < PRICE_EPSILON := by norm_num [PRICE_EPSILON]
  intro left right
  induction left, right using findIndexAux.induct l desc price with
  | case1 left right h hfound =>
    intro h0 hlen hl1 hL hR
    have heq : findIndexAux l desc price left right = left + (right - left) / 2 := by
      rw [findIndexAux, if_pos h, if_pos hfound]
    have hmid1 : left ≤ left + (right - left) / 2 := by omega
    have hmid2 : left + (right - left) / 2 ≤ right := by omega
    rw [heq]
    refine ⟨by omega, by omega, Or.inl ⟨by omega, ?_⟩⟩
    rw [abs_lt]
    constructor
    · linarith [hfound.1]
    · exact hfound.2
  | case2 left right h hnf hdesc hcmp ih =>
    intro h0 hlen hl1 hL hR
    have hmid1 : left ≤ left + (right - left) / 2 := by omega
    have hmid2 : left + (right - left) / 2 ≤ right := by omega
    have heq : findIndexAux l desc price left right =
        findIndexAux l desc price (left + (right - left) / 2 + 1) right := by
      rw [findIndexAux, if_pos h, if_neg hnf, if_pos hdesc, if_pos hcmp]
    have hmn : (left + (right - left) / 2).toNat < l.length := by omega
    have hkey : pkey desc (l.getD (left + (right - left) / 2).toNat ⟨0,0⟩).price ≤
        pkey desc price - PRICE_EPSILON := by
      rw [hdesc]
      simp only [pkey, if_true]
      have habs : ¬ (-PRICE_EPSILON <
            (l.getD (left + (right - left) / 2).toNat ⟨0,0⟩).price - price ∧
          (l.getD (left + (right - left) / 2).toNat ⟨0,0⟩).price - price < PRICE_EPSILON) :=
        hnf
      rcases not_and_or.mp habs with hcase | hcase
      · push_neg at hcase
        linarith
      · push_neg at hcase
        linarith [hcmp]
    have hL' : ∀ j : ℕ, (j : ℤ) < left + (right - left) / 2 + 1 → j < l.length →
        pkey desc (l.getD j ⟨0,0⟩).price ≤ pkey desc price - PRICE_EPSILON := by
      intro j hj hjlen
      by_cases hcase : (j : ℤ) = left + (right - left) / 2
      · have hje : j = (left + (right - left) / 2).toNat := by omega
        rw [hje]
        exact hkey
      · have hss := hs j (left + (right - left) / 2).toNat (by omega) hmn
        linarith [hkey]
    rw [heq]
    exact ih (by omega) hlen (by omega) hL' hR
  | case3 left right h hnf hdesc hcmp ih =>
    intro h0 hlen hl1 hL hR
    have hmid1 : left ≤ left + (right - left) / 2 := by omega
    have hmid2 : left + (right - left) / 2 ≤ right := by omega
    have heq : findIndexAux l desc price left right =
        findIndexAux l desc price left (left + (right - left) / 2 - 1) := by
      rw [findIndexAux, if_pos h, if_neg hnf, if_pos hdesc, if_neg hcmp]
    have hmn : (left + (right - left) / 2).toNat < l.length := by omega
    have hkey : pkey desc price + PRICE_EPSILON ≤
        pkey desc (l.getD (left + (right - left) / 2).toNat ⟨0,0⟩).price := by
      rw [hdesc]
      simp only [pkey, if_true]
      have habs : ¬ (-PRICE_EPSILON <
            (l.getD (left + (right - left) / 2).toNat ⟨0,0⟩).price - price ∧
          (l.getD (left + (right - left) / 2).toNat ⟨0,0⟩).price - price < PRICE_EPSILON) :=
        hnf
      push_neg at hcmp
      rcases not_and_or.mp habs with hcase | hcase
      · push_neg at hcase
        linarith
      · push_neg at hcase
        linarith
    have hR' : ∀ j : ℕ, left + (right - left) / 2 - 1 < (j : ℤ) → j < l.length →
        pkey desc price + PRICE_EPSILON ≤ pkey desc (l.getD j ⟨0,0⟩).price := by
      intro j hj hjlen
      by_cases hcase : (j : ℤ) = left + (right - left) / 2
      · have hje : j = (left + (right - left) / 2).toNat := by omega
        rw [hje]
        exact hkey
      · have hss := hs (left + (right - left) / 2).toNat j (by omega) hjlen
        linarith [hkey]
    rw [heq]
    exact ih (by omega) (by omega) (by omega) hL hR'
  | case4 left right h hnf hdesc hcmp ih =>
    intro h0 hlen hl1 hL hR
    have hmid1 : left ≤ left + (right - left) / 2 := by omega
    have hmid2 : left + (right - left) / 2 ≤ right := by omega
    have heq : findIndexAux l desc price left right =
        findIndexAux l desc price (left + (right - left) / 2 + 1) right := by
      rw [findIndexAux, if_pos h, if_neg hnf, if_neg hdesc, if_pos hcmp]
    have hmn : (left + (right - left) / 2).toNat < l.length := by omega
    have hkey : pkey desc (l.getD (left + (right - left) / 2).toNat ⟨0,0⟩).price ≤
        pkey desc price - PRICE_EPSILON := by
      simp only [Bool.not_eq_true] at hdesc
      rw [hdesc]
      simp only [pkey, if_false, Bool.false_eq_true]
      have habs : ¬ (-PRICE_EPSILON <
            (l.getD (left + (right - left) / 2).toNat ⟨0,0⟩).price - price ∧
          (l.getD (left + (right - left) / 2).toNat ⟨0,0⟩).price - price < PRICE_EPSILON) :=
        hnf
      rcases not_and_or.mp habs with hcase | hcase
      · push_neg at hcase
        linarith [hcmp]
      · push_neg at hcase
        linarith
    have hL' : ∀ j : ℕ, (j : ℤ) < left + (right - left) / 2 + 1 → j < l.length →
        pkey desc (l.getD j ⟨0,0⟩).price ≤ pkey desc price - PRICE_EPSILON := by
      intro j hj hjlen
      by_cases hcase : (j : ℤ) = left + (right - left) / 2
      · have hje : j = (left + (right - left) / 2).toNat := by omega
        rw [hje]
        exact hkey
      · have hss := hs j (left + (right - left) / 2).toNat (by omega) hmn
        linarith [hkey]
    rw [heq]
    exact ih (by omega) hlen (by omega) hL' hR
  | case5 left right h hnf hdesc hcmp ih =>
    intro h0 hlen hl1 hL hR
    have hmid1 : left ≤ left + (right - left) / 2 := by omega
    have hmid2 : left + (right - left) / 2 ≤ right := by omega
    have heq : findIndexAux l desc price left right =
        findIndexAux l desc price left (left + (right - left) / 2 - 1) := by
      rw [findIndexAux, if_pos h, if_neg hnf, if_neg hdesc, if_neg hcmp]
    have hmn : (left + (right - left) / 2).toNat < l.length := by omega
    have hkey : pkey desc price + PRICE_EPSILON ≤
        pkey desc (l.getD (left + (right - left) / 2).toNat ⟨0,0⟩).price := by
      simp only [Bool.not_eq_true] at hdesc
      rw [hdesc]
      simp only [pkey, if_false, Bool.false_eq_true]
      have habs : ¬ (-PRICE_EPSILON <
            (l.getD (left + (right - left) / 2).toNat ⟨0,0⟩).price - price ∧
          (l.getD (left + (right - left) / 2).toNat ⟨0,0⟩).price - price < PRICE_EPSILON) :=
        hnf
      push_neg at hcmp
      rcases not_and_or.mp habs with hcase | hcase
      · push_neg at hcase
        linarith
      · push_neg at hcase
        linarith
    have hR' : ∀ j : ℕ, left + (right - left) / 2 - 1 < (j : ℤ) → j < l.length →
        pkey desc price + PRICE_EPSILON ≤ pkey desc (l.getD j ⟨0,0⟩).price := by
      intro j hj hjlen
      by_cases hcase : (j : ℤ) = left + (right - left) / 2
      · have hje : j = (left + (right - left) / 2).toNat := by omega
        rw [hje]
        exact hkey
      · have hss := hs (left + (right - left) / 2).toNat j (by omega) hjlen
        linarith [hkey]
    rw [heq]
    exact ih (by omega) (by omega) (by omega) hL hR'
  | case6 left right h =>
    intro h0 hlen hl1 hL hR
    have heq : findIndexAux l desc price left right = left := by
      rw [findIndexAux, if_neg h]
    rw [heq]
    refine ⟨h0, by omega, Or.inr ⟨fun j hj hjlen => hL j hj hjlen,
      fun j hj hjlen => hR j (by omega) hjlen⟩⟩

theorem Separated.getD_le (desc : Bool) (l : List PriceLevel)
    (h : Separated desc l) :
    ∀ i j : ℕ, i < j → j < l.length →
      pkey desc (l.getD i ⟨0,0⟩).price + PRICE_EPSILON ≤
        pkey desc (l.getD j ⟨0,0⟩).price := by
  intro i j hij hj
  have hi : i < l.length := lt_trans hij hj
  rw [List.getD_eq_getElem l _ hi, List.getD_eq_getElem l _ hj]
  exact List.pairwise_iff_getElem.mp h i j hi hj hij

theorem findIndex_spec (a : PriceLevelArray) (price : ℚ)
    (h : Separated a.isDescending a.levels) :
    0 ≤ findIndex a price ∧
    findIndex a price ≤ (a.levels.length : ℤ) ∧
    ((findIndex a price < (a.levels.length : ℤ) ∧
      |(a.levels.getD (findIndex a price).toNat ⟨0,0⟩).price - price| < PRICE_EPSILON) ∨
     ((∀ j : ℕ, (j : ℤ) < findIndex a price → j < a.levels.length →
        pkey a.isDescending (a.levels.getD j ⟨0,0⟩).price ≤
          pkey a.isDescending price - PRICE_EPSILON) ∧
      (∀ j : ℕ, findIndex a price ≤ (j : ℤ) → j < a.levels.length →
        pkey a.isDescending price + PRICE_EPSILON ≤
          pkey a.isDescending (a.levels.getD j ⟨0,0⟩).price))) := by
  unfold findIndex
  exact findIndexAux_spec a.levels a.isDescending price
    (Separated.getD_le a.isDescending a.levels h)
    0 ((a.levels.length : ℤ) - 1) le_rfl (by omega) (by omega)
    (fun j hj _ => absurd hj (by omega))
    (fun j hj hjlen => absurd hj (by push_neg; omega))

theorem Separated.eraseIdx (desc : Bool) (l : List PriceLevel) (n : ℕ)
    (h : Separated desc l) : Separated desc (l.eraseIdx n) :=
  h.sublist (List.eraseIdx_sublist l n)

theorem Separated.set_same_price (desc : Bool) (l : List PriceLevel) (n : ℕ)
    (q : ℚ) (_hn : n < l.length) (h : Separated desc l) :
    Separated desc (l.set n ⟨(l.getD n ⟨0,0⟩).price, q⟩) := by
  unfold Separated at h ⊢
  rw [List.pairwise_iff_getElem] at h ⊢
  intro i j hi hj hij
  rw [List.length_set] at hi hj
  have hgen : ∀ (m : ℕ) (hm : m < (l.set n ⟨(l.getD n ⟨0,0⟩).price, q⟩).length),
      (l.set n ⟨(l.getD n ⟨0,0⟩).price, q⟩).get ⟨m, hm⟩ =
        ⟨(l.getD m ⟨0,0⟩).price, ((l.set n ⟨(l.getD n ⟨0,0⟩).price, q⟩).get ⟨m, hm⟩).quantity⟩ := by
    intro m hm
    have hm' : m < l.length := by
      rw [List.length_set] at hm
      exact hm
    rw [List.get_eq_getElem, List.getElem_set]
    by_cases hcase : n = m
    · subst hcase
      rw [if_pos rfl]
    · rw [if_neg hcase, List.getD_eq_getElem l _ hm']
  have hi' : i < (l.set n ⟨(l.getD n ⟨0,0⟩).price, q⟩).length := by
    rw [List.length_set]; exact hi
  have hj' : j < (l.set n ⟨(l.getD n ⟨0,0⟩).price, q⟩).length := by
    rw [List.length_set]; exact hj
  have hpi := congrArg PriceLevel.price (hgen i hi')
  have hpj := congrArg PriceLevel.price (hgen j hj')
  simp only [List.get_eq_getElem] at hpi hpj
  rw [hpi, hpj]
  rw [List.getD_eq_getElem l _ (by omega : i < l.length),
    List.getD_eq_getElem l _ (by omega : j < l.length)]
  exact h i j hi hj hij

theorem Separated.insertAt (desc : Bool) (l : List PriceLevel) (n : ℕ) (p q : ℚ)
    (h : Separated desc l)
    (hL : ∀ j : ℕ, j < n → j < l.length →
      pkey desc (l.getD j ⟨0,0⟩).price ≤ pkey desc p - PRICE_EPSILON)
    (hR : ∀ j : ℕ, n ≤ j → j < l.length →
      pkey desc p + PRICE_EPSILON ≤ pkey desc (l.getD j ⟨0,0⟩).price) :
    Separated desc (l.take n ++ (⟨p, q⟩ : PriceLevel) :: l.drop n) := by
  have hEPS : (0 : ℚ) < PRICE_EPSILON := by norm_num [PRICE_EPSILON]
  unfold Separated at h ⊢
  rw [List.pairwise_append]
  have htake : ∀ x ∈ l.take n, ∃ j : ℕ, j < n ∧ j < l.length ∧ x = l.getD j ⟨0,0⟩ := by
    intro x hx
    rw [List.mem_iff_getElem] at hx
    obtain ⟨j, hjl, hjx⟩ := hx
    rw [List.length_take] at hjl
    have hjlen : j < l.length := lt_of_lt_of_le hjl (by omega)
    refine ⟨j, by omega, hjlen, ?_⟩
    rw [List.getD_eq_getElem l _ hjlen, ← hjx, List.getElem_take]
  have hdrop : ∀ y ∈ l.drop n, ∃ j : ℕ, n ≤ j ∧ j < l.length ∧ y = l.getD j ⟨0,0⟩ := by
    intro y hy
    rw [List.mem_iff_getElem] at hy
    obtain ⟨k, hkl, hky⟩ := hy
    rw [List.length_drop] at hkl
    have hjlen : n + k < l.length := by omega
    refine ⟨n + k, by omega, hjlen, ?_⟩
    rw [List.getD_eq_getElem l _ hjlen, ← hky, List.getElem_drop]
  refine ⟨h.sublist (List.take_sublist n l), ?_, ?_⟩
  · rw [List.pairwise_cons]
    refine ⟨?_, h.sublist (List.drop_sublist n l)⟩
    intro y hy
    obtain ⟨j, hnj, hjlen, hyj⟩ := hdrop y hy
    rw [hyj]
    exact hR j hnj hjlen
  · intro x hx y hy
    obtain ⟨i, hin, hilen, hxi⟩ := htake x hx
    rcases List.mem_cons.mp hy with hynew | hyd
    · rw [hynew, hxi]
      show pkey desc (l.getD i ⟨0,0⟩).price + PRICE_EPSILON ≤ pkey desc p
      have := hL i hin hilen
      linarith
    · obtain ⟨j, hnj, hjlen, hyj⟩ := hdrop y hyd
      rw [hxi, hyj]
      show pkey desc (l.getD i ⟨0,0⟩).price + PRICE_EPSILON ≤
        pkey desc (l.getD j ⟨0,0⟩).price
      have h1 := hL i hin hilen
      have h2 := hR j hnj hjlen
      linarith

theorem insertPLA_inv (a : PriceLevelArray) (p q : ℚ) (h : PLAinv a) :
    PLAinv (insertPLA a p q) := by
  obtain ⟨hsep, hlen, hqty⟩ := h
  obtain ⟨h0, hle, hdisj⟩ := findIndex_spec a p hsep
  unfold insertPLA
  simp only
  by_cases hcond : findIndex a p < (a.levels.length : ℤ) ∧
      -PRICE_EPSILON < (a.levels.getD (findIndex a p).toNat ⟨0, 0⟩).price - p ∧
      (a.levels.getD (findIndex a p).toNat ⟨0, 0⟩).price - p < PRICE_EPSILON
  · rw [if_pos hcond]
    by_cases hq : q ≤ PRICE_EPSILON
    · rw [if_pos hq]
      refine ⟨Separated.eraseIdx _ _ _ hsep, ?_, ?_⟩
      · calc (a.levels.eraseIdx (findIndex a p).toNat).length
            ≤ a.levels.length := List.length_eraseIdx_le _ _
          _ ≤ MAX_LEVELS := hlen
      · intro lv hlv
        exact hqty lv ((List.eraseIdx_sublist _ _).mem hlv)
    · rw [if_neg hq]
      refine ⟨Separated.set_same_price _ _ _ _ (by omega) hsep, ?_, ?_⟩
      · rw [List.length_set]
        exact hlen
      · intro lv hlv
        rcases List.mem_or_eq_of_mem_set hlv with hmem | heq
        · exact hqty lv hmem
        · rw [heq]
          exact lt_of_not_le hq
  · rw [if_neg hcond]
    by_cases hq2 : PRICE_EPSILON < q ∧ a.levels.length < MAX_LEVELS
    · rw [if_pos hq2]
      have hnotfound : (∀ j : ℕ, (j : ℤ) < findIndex a p → j < a.levels.length →
          pkey a.isDescending (a.levels.getD j ⟨0,0⟩).price ≤
            pkey a.isDescending p - PRICE_EPSILON) ∧
          (∀ j : ℕ, findIndex a p ≤ (j : ℤ) → j < a.levels.length →
            pkey a.isDescending p + PRICE_EPSILON ≤
              pkey a.isDescending (a.levels.getD j ⟨0,0⟩).price) := by
        rcases hdisj with hfound | hnf
        · exfalso
          refine hcond ⟨hfound.1, ?_⟩
          have := abs_lt.mp hfound.2
          exact ⟨this.1, this.2⟩
        · exact hnf
      refine ⟨Separated.insertAt _ _ _ _ _ hsep
        (fun j hj hjlen => hnotfound.1 j (by omega) hjlen)
        (fun j hj hjlen => hnotfound.2 j (by omega) hjlen), ?_, ?_⟩
      · rw [List.length_append, List.length_take, List.length_cons, List.length_drop]
        have : (findIndex a p).toNat ≤ a.levels.length := by omega
        omega
      · intro lv hlv
        rcases List.mem_append.mp hlv with htk | hcd
        · exact hqty lv ((List.take_sublist _ _).mem htk)
        · rcases List.mem_cons.mp hcd with hnew | hdp
          · rw [hnew]
            exact hq2.1
          · exact hqty lv ((List.drop_sublist _ _).mem hdp)
    · rw [if_neg hq2]
      exact ⟨hsep, hlen, hqty⟩

theorem eraseAtPLA_inv (a : PriceLevelArray) (n : ℕ) (h : PLAinv a) :
    PLAinv (eraseAtPLA a n) := by
  obtain ⟨hsep, hlen, hqty⟩ := h
  unfold eraseAtPLA
  by_cases hcase : a.levels.length ≤ n
  · rw [if_pos hcase]
    exact ⟨hsep, hlen, hqty⟩
  · rw [if_neg hcase]
    refine ⟨Separated.eraseIdx _ _ _ hsep, ?_, ?_⟩
    · calc (a.levels.eraseIdx n).length ≤ a.levels.length :=
          List.length_eraseIdx_le _ _
        _ ≤ MAX_LEVELS := hlen
    · intro lv hlv
      exact hqty lv ((List.eraseIdx_sublist _ _).mem hlv)

theorem erasePLA_inv (a : PriceLevelArray) (p : ℚ) (h : PLAinv a) :
    PLAinv (erasePLA a p) := by
  unfold erasePLA
  simp only
  by_cases hcond : findIndex a p < (a.levels.length : ℤ) ∧
      -PRICE_EPSILON < (a.levels.getD (findIndex a p).toNat ⟨0, 0⟩).price - p ∧
      (a.levels.getD (findIndex a p).toNat ⟨0, 0⟩).price - p < PRICE_EPSILON
  · rw [if_pos hcond]
    exact eraseAtPLA_inv a _ h
  · rw [if_neg hcond]
    exact h

theorem applyBookOp_inv (a : PriceLevelArray) (op : BookOp) (h : PLAinv a) :
    PLAinv (applyBookOp a op) := by
  cases op with
  | insert p q => exact insertPLA_inv a p q h
  | erase p => exact erasePLA_inv a p h

theorem applyBookOp_desc (a : PriceLevelArray) (op : BookOp) :
    (applyBookOp a op).isDescending = a.isDescending := by
  cases op with
  | insert p q =>
    show (insertPLA a p q).isDescending = a.isDescending
    unfold insertPLA
    simp only
    split <;> [skip; split] <;> [split; rfl; rfl]
    · rfl
    · rfl
  | erase p =>
    show (erasePLA a p).isDescending = a.isDescending
    unfold erasePLA eraseAtPLA
    simp only
    split
    · split <;> rfl
    · rfl

theorem runBookOps_inv (descending : Bool) (ops : List BookOp) :
    PLAinv (runBookOps descending ops) ∧
    (runBookOps descending ops).isDescending = descending := by
  unfold runBookOps
  suffices hgen : ∀ (a : PriceLevelArray), PLAinv a →
      PLAinv (List.foldl applyBookOp a ops) ∧
      (List.foldl applyBookOp a ops).isDescending = a.isDescending by
    exact hgen (emptyPLA descending) ⟨List.Pairwise.nil, by simp [emptyPLA, MAX_LEVELS], by simp [emptyPLA]⟩
  induction ops with
  | nil => exact fun a ha => ⟨ha, rfl⟩
  | cons op rest ih =>
    intro a ha
    simp only [List.foldl_cons]
    obtain ⟨h1, h2⟩ := ih (applyBookOp a op) (applyBookOp_inv a op ha)
    exact ⟨h1, h2.trans (applyBookOp_desc a op)⟩

theorem insertPLA_eps_sublist (a : PriceLevelArray) (p q : ℚ)
    (hq : q ≤ PRICE_EPSILON) : (insertPLA a p q).levels.Sublist a.levels := by
  unfold insertPLA
  simp only
  by_cases hcond : findIndex a p < (a.levels.length : ℤ) ∧
      -PRICE_EPSILON < (a.levels.getD (findIndex a p).toNat ⟨0, 0⟩).price - p ∧
      (a.levels.getD (findIndex a p).toNat ⟨0, 0⟩).price - p < PRICE_EPSILON
  · rw [if_pos hcond, if_pos hq]
    exact List.eraseIdx_sublist _ _
  · rw [if_neg hcond,
      if_neg (by push_neg; intro hx; exact absurd hx (not_lt.mpr hq) :
        ¬ (PRICE_EPSILON < q ∧ a.levels.length < MAX_LEVELS))]

/-- C8: from the empty PriceLevelArray, any sequence of insert and
erase operations keeps the bid-side array strictly descending in price,
the ask-side strictly ascending, the size within MAX_LEVELS, and every
stored quantity above PRICE_EPSILON; inserting a quantity at or below
epsilon never stores a level — it erases the epsilon-equal level if one
exists and otherwise leaves the array unchanged (the result is a
sublist). -/
theorem C8_book_invariants (descending : Bool) (ops : List BookOp) :
    ((runBookOps descending ops).levels.length ≤ MAX_LEVELS) ∧
    (descending = true →
      List.Pairwise (fun x y => y.price < x.price) (runBookOps descending ops).levels) ∧
    (descending = false →
      List.Pairwise (fun x y => x.price < y.price) (runBookOps descending ops).levels) ∧
    (∀ lv ∈ (runBookOps descending ops).levels, PRICE_EPSILON < lv.quantity) ∧
    (∀ p q : ℚ, q ≤ PRICE_EPSILON →
      (insertPLA (runBookOps descending ops) p q).levels.Sublist
        (runBookOps descending ops).levels) := by
  have hEPS : (0 : ℚ) < PRICE_EPSILON := by norm_num [PRICE_EPSILON]
  obtain ⟨⟨hsep, hlen, hqty⟩, hdesc⟩ := runBookOps_inv descending ops
  refine ⟨hlen, ?_, ?_, hqty, fun p q hq => insertPLA_eps_sublist _ p q hq⟩
  · intro hd
    subst hd
    unfold Separated at hsep
    rw [hdesc] at hsep
    refine hsep.imp ?_
    intro x y hxy
    simp only [pkey, if_true] at hxy
    linarith
  · intro hd
    subst hd
    unfold Separated at hsep
    rw [hdesc] at hsep
    refine hsep.imp ?_
    intro x y hxy
    simp only [pkey, if_false, Bool.false_eq_true] at hxy
    linarith

/-- C8 witness: a small descending-book run stays sorted and a
zero-quantity insert removes rather than stores. -/
theorem C8_book_invariants_witness :
    ((runBookOps true [BookOp.insert 100 2, BookOp.insert 101 3,
        BookOp.erase 100]).levels.length ≤ MAX_LEVELS) ∧
    List.Pairwise (fun x y => y.price < x.price)
      (runBookOps true [BookOp.insert 100 2, BookOp.insert 101 3,
        BookOp.erase 100]).levels ∧
    (insertPLA (runBookOps true [BookOp.insert 100 2, BookOp.insert 101 3,
        BookOp.erase 100]) 101 0).levels.Sublist
      (runBookOps true [BookOp.insert 100 2, BookOp.insert 101 3,
        BookOp.erase 100]).levels := by
  have h := C8_book_invariants true [BookOp.insert 100 2, BookOp.insert 101 3,
    BookOp.erase 100]
  exact ⟨h.1, h.2.1 rfl, h.2.2.2.2 101 0 (by norm_num [PRICE_EPSILON])⟩
